import Mathlib

/-
Verification development for the qcore IMDB module (qcore/imdb.py).

The module ingests per-simulation intensity-measure CSV files into an
SQLite store (create_imdb), answers per-station queries with an on-disk
cache (station_ims), and finds the nearest station to a point
(closest_station).  Below is a shallow embedding of that code:

* byte strings (station / simulation / measure names) are `List UInt8`;
* the SQLite store is an explicit record of tables;
* `pandas` tables are lists of rows; CSV parse failures are `Option`;
* exceptions raised by the Python code are `Except` errors;
* machine floats are idealised as real numbers (values are only moved
  around by the ingestion code, never computed on);
* `multiprocessing.Pool` prefetching in `create_imdb` is modelled by the
  `sinkAt` state machine over the set of in-flight task indices, and the
  data semantics by the sequential `buildLoop` (the consumer commits
  files strictly in `enumerate` order, blocking on `sink[i]`).
-/

namespace Imdb

/-- Byte strings: station, simulation and measure names. -/
abbrev Name := List UInt8

/-- The byte string "geom", the surface-observation component marker. -/
def geomName : Name := [103, 101, 111, 109]

/-- The byte string "ims" (registry table name in the SQLite schema). -/
def imsTableName : Name := [105, 109, 115]

/-- The byte string "stations". -/
def stationsTableName : Name := [115, 116, 97, 116, 105, 111, 110, 115]

/-- The byte string "simulations". -/
def simulationsTableName : Name := [115, 105, 109, 117, 108, 97, 116, 105, 111, 110, 115]

/-- One row of a raw CSV as read by `pd.read_csv(csv, index_col=0)`:
the station name (index), the `component` column, and the values of the
remaining (measure) columns in order. -/
structure RawRow where
  station : Name
  component : Name
  values : List ℝ

/-- A raw CSV table: the non-index column names other than `component`
(`pd.read_csv` guarantees column names are unique by mangling
duplicates), and the rows. -/
structure RawTable where
  measures : List Name
  rows : List RawRow

/-- The dataframe produced by `__pandas_loader`: the `component` column
has been used to filter rows and then dropped. -/
structure LoadedTable where
  measures : List Name
  rows : List (Name × List ℝ)

/-- Model of `__pandas_loader` (imdb.py lines 129-134): load a CSV, keep rows with
`component == "geom"`, drop the `component` column.  A `none` input is a
CSV that `pd.read_csv` fails to parse (the loader raises). -/
def pandasLoader (f : Option RawTable) : Option LoadedTable :=
  f.map fun t =>
    ⟨t.measures,
     (t.rows.filter (fun r => decide (r.component = geomName))).map
       (fun r => (r.station, r.values))⟩

/-- A row of the `stations` registry table. -/
structure Station where
  id : Nat
  name : Name
  lon : ℝ
  lat : ℝ

/-- A row of the `simulations` registry table. -/
structure Simulation where
  id : Nat
  name : Name

/-- A row of a per-measure value table: `value` is the nullable SQLite
column; the `NOT NULL` constraint is about which `Option` values ever
get inserted. -/
structure MeasRow where
  station_id : Nat
  simulation_id : Nat
  value : Option ℝ

/-- The SQLite store: the `ims` registry, the `stations` and
`simulations` registries with their AUTOINCREMENT counters, and one
value table per measure name. -/
structure DB where
  ims : List Name
  stations : List Station
  simulations : List Simulation
  tables : List (Name × List MeasRow)
  nextStationId : Nat
  nextSimId : Nat

/-- Messages printed by the module. -/
inductive Msg where
  | skipNoStations (sim : Name)
  | progress (simId total : Nat)
  | stationNotFound (station : Name)
deriving DecidableEq

/-- Build state: the store under construction plus the printed log. -/
structure BState where
  db : DB
  log : List Msg

/-- Python exceptions that abort `create_imdb`. -/
inductive BuildError where
  | keyError
  | parseFailure (sim : Name)
  | schemaClash
  | uniqueViolation
  | missingTable (im : Name)
deriving DecidableEq

/-- Model of `__init_db` (imdb.py lines 23-65): create the three registry tables
and one value table per measure.  `CREATE TABLE` fails with an
`OperationalError` when a table name is reused, i.e. when the measure
list has a duplicate or collides with a registry table name; otherwise
every measure gets an empty value table — including the case of an
empty measure list, which creates zero value tables without complaint. -/
def initDb (ims : List Name) : Except BuildError DB :=
  if ims.Nodup ∧ ∀ m ∈ ims, m ∉ [imsTableName, stationsTableName, simulationsTableName] then
    .ok ⟨ims, [], [], ims.map (fun m => (m, [])), 1, 1⟩
  else .error .schemaClash

/-- The parsed station-location list file: lines `lon lat name`, stored
as (name, lon, lat).  `create_imdb` builds a dict from it, so a repeated
name keeps the last line. -/
abbrev StationFile := List (Name × ℝ × ℝ)

/-- Membership test `name in station_ll`. -/
def llMem (ll : StationFile) (s : Name) : Bool :=
  ll.any (fun e => decide (e.1 = s))

/-- Lookup `station_ll[name]` (dict: the last line for a name wins). -/
def llLookup (ll : StationFile) (s : Name) : ℝ × ℝ :=
  ((ll.reverse.find? (fun e => decide (e.1 = s))).map (·.2)).getD (0, 0)

/-- Model of `listed_stations` (imdb.py lines 186-190): subset of the given
stations that appear in the station list file, in order. -/
def listedStations (ll : StationFile) (stations : List Name) : List Name :=
  stations.filter (llMem ll)

/-- Station names currently registered. -/
def stationNames (db : DB) : List Name := db.stations.map Station.name

/-- The id the `stations` registry maps a name to (junk 0 if absent;
callers only use it for registered names). -/
def stationIdOf (stations : List Station) (s : Name) : Nat :=
  ((stations.find? (fun st => decide (st.name = s))).map Station.id).getD 0

/-- The insertion loop of `__expand_stations` (imdb.py lines 94-102):
insert each genuinely new station with the next AUTOINCREMENT id and its
location from the station list.  Inserting a name already present
violates the UNIQUE constraint (an `IntegrityError`). -/
def insertStations (ll : StationFile) : DB → List Name → Except BuildError DB
  | db, [] => .ok db
  | db, s :: ss =>
    if s ∈ stationNames db then .error .uniqueViolation
    else
      insertStations ll
        { db with
          stations := db.stations ++ [⟨db.nextStationId, s, (llLookup ll s).1, (llLookup ll s).2⟩],
          nextStationId := db.nextStationId + 1 }
        ss

/-- Model of `__expand_stations` (imdb.py lines 82-102): compute the list of not
yet registered names first (the Python list comprehension), then insert
them one by one. -/
def expandStations (db : DB) (ll : StationFile) (stations : List Name) : Except BuildError DB :=
  insertStations ll db (stations.filter (fun s => decide (s ∉ stationNames db)))

/-- Selection `c.loc[interesting_stations]`: for each requested label, all rows of
the table carrying that label, concatenated. -/
def selectRows (rows : List (Name × List ℝ)) : List Name → List (Name × List ℝ)
  | [] => []
  | s :: ss => rows.filter (fun r => decide (r.1 = s)) ++ selectRows rows ss

/-- Whether a table of the given name exists in the store. -/
def tableMem (tables : List (Name × List MeasRow)) (m : Name) : Bool :=
  tables.any (fun tb => decide (tb.1 = m))

/-- Append a batch of rows to the value table of the given name. -/
def appendRows (tables : List (Name × List MeasRow)) (m : Name) (batch : List MeasRow) :
    List (Name × List MeasRow) :=
  tables.map (fun tb => if tb.1 = m then (tb.1, tb.2 ++ batch) else tb)

/-- The rows `executemany` inserts for one measure column (position `j`):
`zip(stations, simulations, table[im].values)`.  Every inserted value is
present (`some`), matching the `NOT NULL` column. -/
def batchRows (stations : List Station) (sel : List (Name × List ℝ)) (simId j : Nat) :
    List MeasRow :=
  sel.map (fun r => ⟨stationIdOf stations r.1, simId, some (r.2.getD j 0)⟩)

/-- The `for im in table.columns.values` loop of `__store_ims` (imdb.py
lines 105-126): insert one batch per measure column; inserting into a
table that does not exist raises an `OperationalError`. -/
def storeImsGo (stations : List Station) (sel : List (Name × List ℝ)) (simId : Nat) :
    List Name → Nat → List (Name × List MeasRow) → Except BuildError (List (Name × List MeasRow))
  | [], _, tables => .ok tables
  | m :: ms, j, tables =>
    if tableMem tables m then
      storeImsGo stations sel simId ms (j + 1) (appendRows tables m (batchRows stations sel simId j))
    else .error (.missingTable m)

/-- The list `interesting_stations` (imdb.py line 216): the retained rows'
stations that appear in the station list, in row order. -/
def interestingOf (ll : StationFile) (t : LoadedTable) : List Name :=
  listedStations ll (t.rows.map Prod.fst)

/-- The write step of one commit-loop iteration (imdb.py lines 221-225):
register the simulation (UNIQUE name), expand the station registry with
the stations of interest, and store one row batch per measure column of
`c.loc[interesting_stations]`. -/
def commitFile (ll : StationFile) (nCsvs : Nat) (bs : BState) (simName : Name)
    (t : LoadedTable) : Except BuildError BState :=
  if simName ∈ bs.db.simulations.map Simulation.name then .error .uniqueViolation
  else
    match expandStations
        { bs.db with
          simulations := bs.db.simulations ++ [⟨bs.db.nextSimId, simName⟩],
          nextSimId := bs.db.nextSimId + 1 }
        ll (interestingOf ll t) with
    | .error e => .error e
    | .ok db2 =>
      match storeImsGo db2.stations (selectRows t.rows (interestingOf ll t))
          bs.db.nextSimId t.measures 0 db2.tables with
      | .error e => .error e
      | .ok tables2 =>
        .ok ⟨{ db2 with tables := tables2 }, bs.log ++ [.progress bs.db.nextSimId nCsvs]⟩

/-- One iteration of the `for i, csv in enumerate(csvs)` loop of
`create_imdb` (imdb.py lines 206-225): obtain the parsed table (the
`.get()` re-raises a background parse failure, aborting the build), skip
the file with a printed message when it has no stations of interest,
otherwise commit it. -/
def processFile (ll : StationFile) (nCsvs : Nat) (bs : BState) (p : Name × Option RawTable) :
    Except BuildError BState :=
  match pandasLoader p.2 with
  | none => .error (.parseFailure p.1)
  | some t =>
    if (interestingOf ll t).isEmpty then
      .ok ⟨bs.db, bs.log ++ [.skipNoStations p.1]⟩
    else commitFile ll nCsvs bs p.1 t

/-- The sequential commit loop over all discovered files, in discovery
order. -/
def buildLoop (ll : StationFile) (nCsvs : Nat) : BState → List (Name × Option RawTable) →
    Except BuildError BState
  | bs, [] => .ok bs
  | bs, p :: ps =>
    match processFile ll nCsvs bs p with
    | .error e => .error e
    | .ok bs2 => buildLoop ll nCsvs bs2 ps

/-- Model of `create_imdb` (imdb.py lines 167-228), data semantics.  Input: the
discovered CSVs as (simulation name, parse result) in glob order, and
the parsed station list.  An empty discovery list makes `sink[0]` a
`KeyError`; a parse failure of the first file is re-raised by
`sink[0].get()` before any schema exists; then every file (including
the first again) flows through the sequential commit loop. -/
def createImdb (files : List (Name × Option RawTable)) (ll : StationFile) :
    Except BuildError BState :=
  match files with
  | [] => .error .keyError
  | first :: _ =>
    match pandasLoader first.2 with
    | none => .error (.parseFailure first.1)
    | some t0 =>
      match initDb t0.measures with
      | .error e => .error e
      | .ok db0 => buildLoop ll files.length ⟨db0, []⟩ files

/-- The prefetch width `step = min(nproc, len(csvs))` (imdb.py line 198): the prefetch
window width. -/
def poolStep (nproc nfiles : Nat) : Nat := min nproc nfiles

/-- The initial prefetch submissions (imdb.py lines 199-200): task
indices `0 .. step-1` are in flight before the commit loop starts. -/
def sinkInit (nproc nfiles : Nat) : List Nat := List.range (poolStep nproc nfiles)

/-- One commit-loop iteration's effect on the in-flight task set
(imdb.py lines 208-213): the consumer takes `sink[i]` (blocking on it),
deletes it, and submits task `i + step` unless that runs past the end of
the file list (the caught `IndexError`). -/
def sinkNext (nproc nfiles i : Nat) (sink : List Nat) : List Nat :=
  if i + poolStep nproc nfiles < nfiles then
    sink.erase i ++ [i + poolStep nproc nfiles]
  else sink.erase i

/-- The in-flight task set at the start of commit-loop iteration `i`
(for `i = nfiles`, after the loop). -/
def sinkAt (nproc nfiles : Nat) : Nat → List Nat
  | 0 => sinkInit nproc nfiles
  | i + 1 => sinkNext nproc nfiles i (sinkAt nproc nfiles i)

section SinkLemmas

/-- Closed form of the in-flight set: the interval of task indices from
`i` up to `min (i + step) nfiles`. -/
theorem sinkAt_eq_range' (nproc nfiles : Nat) (hN : 1 ≤ nproc) :
    ∀ i, i ≤ nfiles →
      sinkAt nproc nfiles i = List.range' i (min (i + poolStep nproc nfiles) nfiles - i) := by
  intro i
  induction i with
  | zero =>
    intro _
    have hstep : poolStep nproc nfiles ≤ nfiles := Nat.min_le_right _ _
    simp [sinkAt, sinkInit, List.range_eq_range', Nat.min_eq_left hstep]
  | succ i ih =>
    intro hle
    have hi : i < nfiles := Nat.lt_of_succ_le hle
    have hstep_pos : 1 ≤ poolStep nproc nfiles := le_min hN (by omega)
    have hrec := ih (Nat.le_of_lt hi)
    rw [sinkAt, hrec, sinkNext]
    by_cases hcase : i + poolStep nproc nfiles < nfiles
    · have hmin2 : min (i + 1 + poolStep nproc nfiles) nfiles = i + 1 + poolStep nproc nfiles := by
        omega
      rw [if_pos hcase, hmin2]
      have hk : min (i + poolStep nproc nfiles) nfiles - i = Nat.succ (poolStep nproc nfiles - 1) := by
        omega
      rw [hk, List.range'_succ, List.erase_cons_head]
      have hconcat : List.range' (i + 1) (poolStep nproc nfiles - 1) ++ [i + 1 + (poolStep nproc nfiles - 1)] =
          List.range' (i + 1) (poolStep nproc nfiles - 1 + 1) := by
        rw [List.range'_1_concat]
      have harg : i + 1 + (poolStep nproc nfiles - 1) = i + poolStep nproc nfiles := by omega
      rw [harg] at hconcat
      rw [hconcat]
      congr 1
      omega
    · have hmin2 : min (i + 1 + poolStep nproc nfiles) nfiles = nfiles := by omega
      have hk : min (i + poolStep nproc nfiles) nfiles - i = Nat.succ (nfiles - i - 1) := by omega
      rw [if_neg hcase, hk, List.range'_succ, List.erase_cons_head]
      congr 1
      omega

end SinkLemmas

/-- Whether a build step aborted with an exception. -/
def buildFailed {α : Type} (r : Except BuildError α) : Bool :=
  match r with
  | .error _ => true
  | .ok _ => false

section ProcessFileLemmas

theorem processFile_parseFail (ll : StationFile) (n : Nat) (bs : BState)
    (p : Name × Option RawTable) (h : pandasLoader p.2 = none) :
    processFile ll n bs p = .error (.parseFailure p.1) := by
  unfold processFile
  rw [h]

theorem processFile_skip (ll : StationFile) (n : Nat) (bs : BState)
    (p : Name × Option RawTable) (t : LoadedTable) (h : pandasLoader p.2 = some t)
    (h2 : listedStations ll (t.rows.map Prod.fst) = []) :
    processFile ll n bs p = .ok ⟨bs.db, bs.log ++ [.skipNoStations p.1]⟩ := by
  unfold processFile
  rw [h]
  simp [interestingOf, h2]

theorem buildLoop_cons (ll : StationFile) (n : Nat) (bs : BState)
    (p : Name × Option RawTable) (ps : List (Name × Option RawTable)) (bs2 : BState)
    (h : processFile ll n bs p = .ok bs2) :
    buildLoop ll n bs (p :: ps) = buildLoop ll n bs2 ps := by
  show (match processFile ll n bs p with
        | .error e => .error e
        | .ok bs2 => buildLoop ll n bs2 ps) = buildLoop ll n bs2 ps
  rw [h]

/-- A parse failure anywhere in the remaining file list aborts the
commit loop: nothing between `sink[i].get()` and the write step catches
a re-raised parser exception. -/
theorem buildLoop_parseFail_isError (ll : StationFile) (n : Nat) :
    ∀ files : List (Name × Option RawTable), ∀ bs : BState,
      (∃ p ∈ files, (pandasLoader p.2).isNone = true) →
      buildFailed (buildLoop ll n bs files) = true := by
  intro files
  induction files with
  | nil =>
    rintro bs ⟨p, hp, _⟩
    cases hp
  | cons q qs ih =>
    rintro bs ⟨p, hp, hbad⟩
    rcases List.mem_cons.mp hp with rfl | hmem
    · have hn : pandasLoader p.2 = none := Option.isNone_iff_eq_none.mp hbad
      rw [buildLoop, processFile_parseFail ll n bs p hn]
      rfl
    · rw [buildLoop]
      cases hpf : processFile ll n bs q with
      | error e => rfl
      | ok bs2 => exact ih bs2 ⟨p, hmem, hbad⟩

end ProcessFileLemmas

section Fixtures

/-- The byte string "A" (a station name). -/
def nmA : Name := [65]

/-- The byte string "B" (a station name). -/
def nmB : Name := [66]

/-- The byte string "P" (a measure name). -/
def nmP : Name := [80]

/-- The byte string "1" (a simulation name). -/
def nmS1 : Name := [49]

/-- The byte string "2" (a simulation name). -/
def nmS2 : Name := [50]

/-- A well-formed source CSV: one `geom` row for station `A`, one
measure column `P`. -/
def rawA : RawTable := ⟨[nmP], [⟨nmA, geomName, [0]⟩]⟩

/-- A source CSV whose only `geom` row is for station `B`. -/
def rawB : RawTable := ⟨[nmP], [⟨nmB, geomName, [0]⟩]⟩

/-- A source CSV with two `geom` rows for the same station `A`. -/
def rawAA : RawTable := ⟨[nmP], [⟨nmA, geomName, [0]⟩, ⟨nmA, geomName, [1]⟩]⟩

/-- A station list file containing only station `A` at (0, 0). -/
def llOnlyA : StationFile := [(nmA, 0, 0)]

/-- A two-file discovery list whose second file fails to parse. -/
def filesParseFail : List (Name × Option RawTable) := [(nmS1, some rawA), (nmS2, none)]

/-- A two-file discovery list: file 1 registers station `A`; file 2
carries two retained rows for `A`. -/
def filesDupStation : List (Name × Option RawTable) := [(nmS1, some rawA), (nmS2, some rawAA)]

end Fixtures

/-- C1, counterexample.  The claim says a parse failure on a non-first
source file is caught and the file skipped; in fact `sink[i].get()`
re-raises it with no handler (the only `try`/`except` around it catches
the `IndexError` of prefetching past the end), so the build aborts. -/
theorem c1_counterexample :
    createImdb filesParseFail llOnlyA = .error (.parseFailure nmS2) := by
  rfl

/-- C1, amended: a parse failure on ANY source file — first or later —
aborts the whole build; no file is ever skipped because of a parse
failure. -/
theorem c1_parse_failure_aborts (files : List (Name × Option RawTable)) (ll : StationFile)
    (h : ∃ p ∈ files, (pandasLoader p.2).isNone = true) :
    buildFailed (createImdb files ll) = true := by
  cases files with
  | nil => rfl
  | cons first rest =>
    show buildFailed
        (match pandasLoader first.2 with
          | none => .error (.parseFailure first.1)
          | some t0 =>
            match initDb t0.measures with
            | .error e => .error e
            | .ok db0 => buildLoop ll (first :: rest).length ⟨db0, []⟩ (first :: rest)) = true
    cases hload : pandasLoader first.2 with
    | none => rfl
    | some t0 =>
      show buildFailed
          (match initDb t0.measures with
            | .error e => .error e
            | .ok db0 => buildLoop ll (first :: rest).length ⟨db0, []⟩ (first :: rest)) = true
      cases hinit : initDb t0.measures with
      | error e => rfl
      | ok db0 => exact buildLoop_parseFail_isError ll (first :: rest).length (first :: rest) ⟨db0, []⟩ h

/-- C1, witness for the amended theorem at a concrete input. -/
theorem c1_parse_failure_aborts_witness :
    (∃ p ∈ filesParseFail, (pandasLoader p.2).isNone = true) ∧
      buildFailed (createImdb filesParseFail llOnlyA) = true :=
  ⟨⟨(nmS2, none), List.Mem.tail _ (List.Mem.head _), rfl⟩,
    c1_parse_failure_aborts filesParseFail llOnlyA
      ⟨(nmS2, none), List.Mem.tail _ (List.Mem.head _), rfl⟩⟩

/-- C4, counterexample.  The claim says schema initialization fails on
an empty measure list; in fact `__init_db` runs an empty `executemany`
and a zero-iteration `CREATE TABLE` loop and succeeds. -/
theorem c4_counterexample : buildFailed (initDb []) = false := by
  rfl

/-- C4, amended: schema initialization with an empty discovered
measure-name list does not fail — it silently creates a store holding
only the three registry tables and zero value tables. -/
theorem c4_empty_measures_succeeds :
    initDb [] = .ok ⟨[], [], [], [], 1, 1⟩ := by
  rfl

/-- C5: a source file whose retained rows have no stations of interest
is skipped whole — the store (simulations, stations, tables) is
untouched, only an informational message is appended — and the commit
loop continues with the remaining files. -/
theorem c5_zero_interest_skipped (ll : StationFile) (n : Nat) (bs : BState)
    (p : Name × Option RawTable) (t : LoadedTable) (rest : List (Name × Option RawTable))
    (h : pandasLoader p.2 = some t)
    (h2 : listedStations ll (t.rows.map Prod.fst) = []) :
    processFile ll n bs p = .ok ⟨bs.db, bs.log ++ [.skipNoStations p.1]⟩ ∧
      buildLoop ll n bs (p :: rest) =
        buildLoop ll n ⟨bs.db, bs.log ++ [.skipNoStations p.1]⟩ rest := by
  refine ⟨processFile_skip ll n bs p t h h2, ?_⟩
  exact buildLoop_cons ll n bs p rest _ (processFile_skip ll n bs p t h h2)

/-- C5, witness: a file listing only station `B` against a station list
containing only `A`. -/
theorem c5_zero_interest_skipped_witness :
    pandasLoader (nmS1, some rawB).2 = some ⟨[nmP], [(nmB, [0])]⟩ ∧
      listedStations llOnlyA ([(nmB, ([0] : List ℝ))].map Prod.fst) = [] ∧
      (processFile llOnlyA 1 ⟨⟨[nmP], [], [], [(nmP, [])], 1, 1⟩, []⟩ (nmS1, some rawB) =
          .ok ⟨⟨[nmP], [], [], [(nmP, [])], 1, 1⟩, [] ++ [.skipNoStations nmS1]⟩ ∧
        buildLoop llOnlyA 1 ⟨⟨[nmP], [], [], [(nmP, [])], 1, 1⟩, []⟩ [(nmS1, some rawB)] =
          buildLoop llOnlyA 1 ⟨⟨[nmP], [], [], [(nmP, [])], 1, 1⟩, [] ++ [.skipNoStations nmS1]⟩ []) :=
  ⟨rfl, rfl,
    c5_zero_interest_skipped llOnlyA 1 ⟨⟨[nmP], [], [], [(nmP, [])], 1, 1⟩, []⟩
      (nmS1, some rawB) ⟨[nmP], [(nmB, [0])]⟩ [] rfl rfl⟩

section RegistryLemmas

/-- Lemma: `insertStations` only grows the station registry: every other store
field is untouched. -/
theorem insertStations_fields (ll : StationFile) :
    ∀ (new : List Name) (db db' : DB), insertStations ll db new = .ok db' →
      db'.ims = db.ims ∧ db'.simulations = db.simulations ∧ db'.tables = db.tables ∧
        db'.nextSimId = db.nextSimId := by
  intro new
  induction new with
  | nil =>
    intro db db' h
    cases h
    exact ⟨rfl, rfl, rfl, rfl⟩
  | cons s ss ih =>
    intro db db' h
    rw [insertStations] at h
    split at h
    · cases h
    · have hrec := ih _ db' h
      exact hrec

/-- What one commit-loop iteration does to the simulation registry:
either the file is skipped (registry untouched) or exactly one new
simulation is appended, carrying the next AUTOINCREMENT id. -/
theorem processFile_sims (ll : StationFile) (n : Nat) (bs : BState)
    (p : Name × Option RawTable) (bs' : BState)
    (h : processFile ll n bs p = .ok bs') :
    (bs'.db.simulations = bs.db.simulations ∧ bs'.db.nextSimId = bs.db.nextSimId) ∨
      (bs'.db.simulations = bs.db.simulations ++ [⟨bs.db.nextSimId, p.1⟩] ∧
        bs'.db.nextSimId = bs.db.nextSimId + 1) := by
  unfold processFile at h
  split at h
  · cases h
  · split at h
    · cases h
      exact Or.inl ⟨rfl, rfl⟩
    · unfold commitFile at h
      split at h
      · cases h
      · split at h
        · cases h
        · rename_i db2 hexp
          split at h
          · cases h
          · rename_i tables2 hstore
            cases h
            have hf := insertStations_fields ll _ _ db2 hexp
            exact Or.inr ⟨hf.2.1, hf.2.2.2⟩

/-- Over the whole commit loop, the simulation registry only grows by a
run of new entries whose names form a sublist of the discovered file
names, in discovery order, with strictly increasing ids. -/
theorem buildLoop_sims (ll : StationFile) (n : Nat) :
    ∀ (files : List (Name × Option RawTable)) (bs bs' : BState),
      buildLoop ll n bs files = .ok bs' →
      (∀ s ∈ bs.db.simulations, s.id < bs.db.nextSimId) →
      (∃ ds, bs'.db.simulations = bs.db.simulations ++ ds ∧
          (ds.map Simulation.name).Sublist (files.map Prod.fst)) ∧
        (∀ s ∈ bs'.db.simulations, s.id < bs'.db.nextSimId) ∧
        ((bs.db.simulations.map Simulation.id).Sorted (· < ·) →
          (bs'.db.simulations.map Simulation.id).Sorted (· < ·)) := by
  intro files
  induction files with
  | nil =>
    intro bs bs' h hlt
    cases h
    exact ⟨⟨[], by simp, List.Sublist.refl _⟩, hlt, fun hs => hs⟩
  | cons p ps ih =>
    intro bs bs' h hlt
    rw [buildLoop] at h
    cases hpf : processFile ll n bs p with
    | error e => rw [hpf] at h; cases h
    | ok bs2 =>
      rw [hpf] at h
      rcases processFile_sims ll n bs p bs2 hpf with ⟨hsim, hnext⟩ | ⟨hsim, hnext⟩
      · have hlt2 : ∀ s ∈ bs2.db.simulations, s.id < bs2.db.nextSimId := by
          rw [hsim, hnext]; exact hlt
        obtain ⟨⟨ds, hds, hsub⟩, hlt', hsort⟩ := ih bs2 bs' h hlt2
        refine ⟨⟨ds, by rw [hds, hsim], hsub.cons _⟩, hlt', ?_⟩
        intro hs
        exact hsort (by rw [hsim]; exact hs)
      · have hlt2 : ∀ s ∈ bs2.db.simulations, s.id < bs2.db.nextSimId := by
          rw [hsim, hnext]
          intro s hs
          rcases List.mem_append.mp hs with hmem | hmem
          · exact Nat.lt_succ_of_lt (hlt s hmem)
          · rcases List.mem_singleton.mp hmem with rfl
            exact Nat.lt_succ_self _
        obtain ⟨⟨ds, hds, hsub⟩, hlt', hsort⟩ := ih bs2 bs' h hlt2
        refine ⟨⟨⟨bs.db.nextSimId, p.1⟩ :: ds, ?_, ?_⟩, hlt', ?_⟩
        · rw [hds, hsim]
          simp
        · simpa using List.Sublist.cons₂ p.1 hsub
        · intro hs
          apply hsort
          rw [hsim, List.map_append]
          rw [List.Sorted, List.pairwise_append]
          refine ⟨hs, by simp, ?_⟩
          intro a ha b hb
          simp at hb
          subst hb
          simp at ha
          obtain ⟨s, hsmem, hsid⟩ := ha
          subst hsid
          exact hlt s hsmem

end RegistryLemmas

/-- Successful schema initialization yields exactly the fresh store. -/
theorem initDb_ok (ims : List Name) (db : DB) (h : initDb ims = .ok db) :
    db = ⟨ims, [], [], ims.map (fun m => (m, [])), 1, 1⟩ := by
  unfold initDb at h
  split at h
  · cases h; rfl
  · cases h

/-- C2: the bounded-lookahead pipeline of `create_imdb`.  For every
worker-pool size `N ≥ 1` and every reachable state of the commit loop
(iteration `i` of `nfiles`): at most `N` parse tasks are in flight, the
task the consumer blocks on (`sink[i]`) is the oldest outstanding one,
and a completed build's simulation registry lists (commits) file names
as a sublist of the discovery order with strictly increasing ids. -/
theorem c2_pipeline_bounded_ordered (N nfiles : Nat) (hN : 1 ≤ N) :
    (∀ i ≤ nfiles,
        (sinkAt N nfiles i).length ≤ N ∧
        (∀ j ∈ sinkAt N nfiles i, i ≤ j) ∧
        (i < nfiles → (sinkAt N nfiles i).head? = some i)) ∧
      (∀ (files : List (Name × Option RawTable)) (ll : StationFile) (bs : BState),
          createImdb files ll = .ok bs →
          ((bs.db.simulations.map Simulation.name).Sublist (files.map Prod.fst) ∧
            (bs.db.simulations.map Simulation.id).Sorted (· < ·))) := by
  constructor
  · intro i hi
    have hchar := sinkAt_eq_range' N nfiles hN i hi
    refine ⟨?_, ?_, ?_⟩
    · rw [hchar, List.length_range']
      have : poolStep N nfiles ≤ N := Nat.min_le_left _ _
      omega
    · intro j hj
      rw [hchar, List.mem_range'_1] at hj
      exact hj.1
    · intro hlt
      have hstep_pos : 1 ≤ poolStep N nfiles := le_min hN (by omega)
      have hk : min (i + poolStep N nfiles) nfiles - i = (min (i + poolStep N nfiles) nfiles - i - 1) + 1 := by
        omega
      rw [hchar, hk, List.range'_succ]
      rfl
  · intro files ll bs h
    unfold createImdb at h
    split at h
    · cases h
    · rename_i first rest
      split at h
      · cases h
      · split at h
        · cases h
        · rename_i db0 hinit
          have hdb0 := initDb_ok _ _ hinit
          subst hdb0
          obtain ⟨⟨ds, hds, hsub⟩, _, hsort⟩ :=
            buildLoop_sims ll (first :: rest).length (first :: rest) ⟨_, []⟩ bs h (by intro s hs; cases hs)
          constructor
          · rw [hds]
            simpa using hsub
          · apply hsort
            simp [List.Sorted]

/-- C2, witness: the pipeline bound at `N = 1` over two files. -/
theorem c2_pipeline_bounded_ordered_witness :
    1 ≤ 1 ∧
      ((∀ i ≤ 2,
          (sinkAt 1 2 i).length ≤ 1 ∧
          (∀ j ∈ sinkAt 1 2 i, i ≤ j) ∧
          (i < 2 → (sinkAt 1 2 i).head? = some i)) ∧
        (∀ (files : List (Name × Option RawTable)) (ll : StationFile) (bs : BState),
            createImdb files ll = .ok bs →
            ((bs.db.simulations.map Simulation.name).Sublist (files.map Prod.fst) ∧
              (bs.db.simulations.map Simulation.id).Sorted (· < ·)))) :=
  ⟨Nat.le_refl 1, c2_pipeline_bounded_ordered 1 2 (Nat.le_refl 1)⟩

section Invariants

/-- The (station identity, simulation identity) key of each row of a
value table. -/
def tablePairs (rows : List MeasRow) : List (Nat × Nat) :=
  rows.map (fun r => (r.station_id, r.simulation_id))

/-- The measurement invariant over the value tables: unique
(station, simulation) keys, present values, and simulation ids that
exist in the registry. -/
def TablesWF (db : DB) : Prop :=
  ∀ tb ∈ db.tables, (tablePairs tb.2).Nodup ∧
    ∀ r ∈ tb.2, r.value.isSome = true ∧ r.simulation_id ∈ db.simulations.map Simulation.id

/-- Store well-formedness maintained by the build. -/
def DBWF (db : DB) : Prop :=
  (db.stations.map Station.name).Nodup ∧
  (db.stations.map Station.id).Nodup ∧
  (∀ s ∈ db.stations, s.id < db.nextStationId) ∧
  (db.simulations.map Simulation.id).Nodup ∧
  (∀ s ∈ db.simulations, s.id < db.nextSimId) ∧
  TablesWF db

/-- A source file whose retained rows carry pairwise-distinct station
names and whose measure columns are distinct (`pd.read_csv` mangles
duplicate column names, so the second part always holds for real CSVs). -/
def fileOk (p : Name × Option RawTable) : Bool :=
  match pandasLoader p.2 with
  | none => true
  | some t => decide ((t.rows.map Prod.fst).Nodup ∧ t.measures.Nodup)

/-- The freshly initialized store is well formed. -/
theorem initDb_wf (ims : List Name) (db : DB) (h : initDb ims = .ok db) : DBWF db := by
  rw [initDb_ok ims db h]
  refine ⟨by simp, by simp, by simp, by simp, by simp, ?_⟩
  intro tb htb
  rcases List.mem_map.mp htb with ⟨m, _, rfl⟩
  exact ⟨List.nodup_nil, by simp⟩

/-- Selecting one label from a table whose labels are distinct returns
exactly the one matching row. -/
theorem filter_station_single (s : Name) :
    ∀ rows : List (Name × List ℝ), (rows.map Prod.fst).Nodup → s ∈ rows.map Prod.fst →
      (rows.filter (fun r => decide (r.1 = s))).map Prod.fst = [s] := by
  intro rows
  induction rows with
  | nil => intro _ hmem; cases hmem
  | cons r rs ih =>
    intro hnodup hmem
    rw [List.map_cons, List.nodup_cons] at hnodup
    by_cases hr : r.1 = s
    · have hnone : rs.filter (fun x => decide (x.1 = s)) = [] := by
        rw [List.filter_eq_nil_iff]
        intro x hx hdec
        have : x.1 = s := of_decide_eq_true hdec
        exact hnodup.1 (hr ▸ this ▸ List.mem_map_of_mem Prod.fst hx)
      rw [List.filter_cons_of_pos (by simp [hr]), hnone]
      simp [hr]
    · have hs : s ∈ rs.map Prod.fst := by
        rw [List.map_cons] at hmem
        rcases List.mem_cons.mp hmem with h0 | h0
        · exact absurd h0.symm hr
        · exact h0
      rw [List.filter_cons_of_neg (by simp [hr])]
      exact ih hnodup.2 hs

/-- Lemma: `c.loc[sel]` over a table with distinct labels: the selected rows'
labels are exactly the requested ones, in request order. -/
theorem selectRows_names (rows : List (Name × List ℝ)) (hrows : (rows.map Prod.fst).Nodup) :
    ∀ sel : List Name, (∀ s ∈ sel, s ∈ rows.map Prod.fst) →
      (selectRows rows sel).map Prod.fst = sel := by
  intro sel
  induction sel with
  | nil => intro _; rfl
  | cons s ss ih =>
    intro hmem
    rw [selectRows, List.map_append, filter_station_single s rows hrows (hmem s (List.mem_cons_self s ss)),
      ih (fun x hx => hmem x (List.mem_cons_of_mem s hx))]
    rfl

/-- In a registry with distinct names and distinct ids, the name-to-id
map is injective on registered names. -/
theorem stationIdOf_inj (sts : List Station)
    (hi : (sts.map Station.id).Nodup)
    (a b : Name) (ha : a ∈ sts.map Station.name) (hb : b ∈ sts.map Station.name)
    (h : stationIdOf sts a = stationIdOf sts b) : a = b := by
  rcases List.mem_map.mp ha with ⟨sta, hsta, rfl⟩
  rcases List.mem_map.mp hb with ⟨stb, hstb, rfl⟩
  have hfa : (sts.find? (fun st => decide (st.name = sta.name))).isSome := by
    rw [List.find?_isSome]
    exact ⟨sta, hsta, by simp⟩
  have hfb : (sts.find? (fun st => decide (st.name = stb.name))).isSome := by
    rw [List.find?_isSome]
    exact ⟨stb, hstb, by simp⟩
  rcases Option.isSome_iff_exists.mp hfa with ⟨sa, hsa⟩
  rcases Option.isSome_iff_exists.mp hfb with ⟨sb, hsb⟩
  have hsa_p := List.find?_some hsa
  have hsa_name : sa.name = sta.name := of_decide_eq_true hsa_p
  have hsb_p := List.find?_some hsb
  have hsb_name : sb.name = stb.name := of_decide_eq_true hsb_p
  have hsa_mem : sa ∈ sts := List.mem_of_find?_eq_some hsa
  have hsb_mem : sb ∈ sts := List.mem_of_find?_eq_some hsb
  rw [stationIdOf, hsa, stationIdOf, hsb] at h
  simp at h
  by_contra hne
  have hid_ne : sa.id ≠ sb.id := by
    have hpw : sts.Pairwise (fun x y => x.id ≠ y.id) := (List.pairwise_map.mp hi)
    have hdistinct : sa ≠ sb := by
      intro hcontra
      exact hne (hsa_name.symm.trans (hcontra ▸ hsb_name))
    have hsymm : Symmetric (fun x y : Station => x.id ≠ y.id) := by
      intro x y hxy heq
      exact hxy heq.symm
    exact hpw.forall hsymm hsa_mem hsb_mem hdistinct
  exact hid_ne h

/-- The insertion loop of `__expand_stations` preserves the station
registry invariants (each insert checks the UNIQUE name constraint and
takes a fresh AUTOINCREMENT id), registers every requested name, and
keeps previously registered names. -/
theorem insertStations_wf (ll : StationFile) :
    ∀ (new : List Name) (db db' : DB), insertStations ll db new = .ok db' →
      (((db.stations.map Station.name).Nodup ∧ (db.stations.map Station.id).Nodup ∧
          (∀ s ∈ db.stations, s.id < db.nextStationId)) →
        ((db'.stations.map Station.name).Nodup ∧ (db'.stations.map Station.id).Nodup ∧
          (∀ s ∈ db'.stations, s.id < db'.nextStationId))) ∧
      (∀ s ∈ new, s ∈ stationNames db') ∧
      (∀ s, s ∈ stationNames db → s ∈ stationNames db') := by
  intro new
  induction new with
  | nil =>
    intro db db' h
    cases h
    refine ⟨fun hinv => hinv, ?_, fun s hs => hs⟩
    intro s hs
    cases hs
  | cons s ss ih =>
    intro db db' h
    rw [insertStations] at h
    split at h
    · cases h
    · rename_i hnotmem
      obtain ⟨hpres, hmemnew, hmemold⟩ := ih _ db' h
      have hnames2 : stationNames
          { db with
            stations := db.stations ++ [⟨db.nextStationId, s, (llLookup ll s).1, (llLookup ll s).2⟩],
            nextStationId := db.nextStationId + 1 } = stationNames db ++ [s] := by
        simp [stationNames]
      have hs2 : s ∈ stationNames db ++ [s] := List.mem_append_right _ (List.mem_singleton.mpr rfl)
      refine ⟨?_, ?_, ?_⟩
      · intro hinv
        apply hpres
        refine ⟨?_, ?_, ?_⟩
        · simp only [List.map_append, List.map_cons, List.map_nil]
          rw [List.nodup_append]
          refine ⟨hinv.1, by simp, ?_⟩
          intro a hmem hb
          rcases List.mem_singleton.mp hb with rfl
          exact hnotmem hmem
        · simp only [List.map_append, List.map_cons, List.map_nil]
          rw [List.nodup_append]
          refine ⟨hinv.2.1, by simp, ?_⟩
          intro a hmem hb
          rcases List.mem_singleton.mp hb with rfl
          rcases List.mem_map.mp hmem with ⟨st, hst, hid⟩
          exact absurd hid (Nat.ne_of_lt (hinv.2.2 st hst))
        · intro st hst
          rcases List.mem_append.mp hst with hmem | hmem
          · exact Nat.lt_succ_of_lt (hinv.2.2 st hmem)
          · rcases List.mem_singleton.mp hmem with rfl
            exact Nat.lt_succ_self _
      · intro x hx
        rcases List.mem_cons.mp hx with rfl | hmem
        · exact hmemold x (hnames2 ▸ hs2)
        · exact hmemnew x hmem
      · intro x hx
        exact hmemold x (hnames2 ▸ List.mem_append_left _ hx)

/-- What `__expand_stations` guarantees on success. -/
theorem expandStations_wf (db db' : DB) (ll : StationFile) (stations : List Name)
    (h : expandStations db ll stations = .ok db') :
    (((db.stations.map Station.name).Nodup ∧ (db.stations.map Station.id).Nodup ∧
        (∀ s ∈ db.stations, s.id < db.nextStationId)) →
      ((db'.stations.map Station.name).Nodup ∧ (db'.stations.map Station.id).Nodup ∧
        (∀ s ∈ db'.stations, s.id < db'.nextStationId))) ∧
    (∀ s ∈ stations, s ∈ stationNames db') ∧
    (db'.ims = db.ims ∧ db'.simulations = db.simulations ∧ db'.tables = db.tables ∧
      db'.nextSimId = db.nextSimId) := by
  unfold expandStations at h
  obtain ⟨hpres, hmemnew, hmemold⟩ := insertStations_wf ll _ db db' h
  refine ⟨hpres, ?_, insertStations_fields ll _ db db' h⟩
  intro s hs
  by_cases hmem : s ∈ stationNames db
  · exact hmemold s hmem
  · exact hmemnew s (List.mem_filter.mpr ⟨hs, by simpa using hmem⟩)

/-- The `__store_ims` loop preserves the measurement invariant: when
the batch's station ids are distinct, the measure columns are distinct,
and no table commissioned for this file carries this simulation id yet,
every resulting table keeps unique (station, simulation) keys, present
values, and registered simulation ids. -/
theorem storeImsGo_wf (stations : List Station) (sel : List (Name × List ℝ)) (simId : Nat)
    (simsIds : List Nat) (hS : simId ∈ simsIds)
    (hid : (sel.map (fun r => stationIdOf stations r.1)).Nodup) :
    ∀ (ms : List Name) (j : Nat) (tables tables' : List (Name × List MeasRow)),
      storeImsGo stations sel simId ms j tables = .ok tables' →
      ms.Nodup →
      (∀ tb ∈ tables, (tablePairs tb.2).Nodup ∧
        ∀ r ∈ tb.2, r.value.isSome = true ∧ r.simulation_id ∈ simsIds) →
      (∀ m ∈ ms, ∀ tb ∈ tables, tb.1 = m → ∀ r ∈ tb.2, r.simulation_id ≠ simId) →
      ∀ tb ∈ tables', (tablePairs tb.2).Nodup ∧
        ∀ r ∈ tb.2, r.value.isSome = true ∧ r.simulation_id ∈ simsIds := by
  intro ms
  induction ms with
  | nil =>
    intro j tables tables' h _ hold _
    cases h
    exact hold
  | cons m ms ih =>
    intro j tables tables' h hnodup hold hfresh
    rw [storeImsGo] at h
    split at h
    · have hnodup' := List.nodup_cons.mp hnodup
      have hbatch_pairs : tablePairs (batchRows stations sel simId j) =
          (sel.map (fun r => stationIdOf stations r.1)).map (fun i => (i, simId)) := by
        simp [tablePairs, batchRows, List.map_map]
      apply ih (j + 1) _ tables' h hnodup'.2
      · intro tb htb
        rw [appendRows] at htb
        rcases List.mem_map.mp htb with ⟨tb0, htb0, heq⟩
        by_cases hname : tb0.1 = m
        · rw [if_pos hname] at heq
          subst heq
          constructor
          · show (tablePairs (tb0.2 ++ batchRows stations sel simId j)).Nodup
            have hsplit : tablePairs (tb0.2 ++ batchRows stations sel simId j) =
                tablePairs tb0.2 ++ tablePairs (batchRows stations sel simId j) := by
              simp [tablePairs]
            rw [hsplit]
            apply List.Nodup.append
            · exact (hold tb0 htb0).1
            · rw [hbatch_pairs]
              exact hid.map (fun a b hab => congrArg Prod.fst hab)
            · intro x hx hx'
              rcases List.mem_map.mp hx with ⟨r, hr, rfl⟩
              rw [hbatch_pairs] at hx'
              rcases List.mem_map.mp hx' with ⟨i, _, heq2⟩
              have hne := hfresh m (List.mem_cons_self m ms) tb0 htb0 hname r hr
              exact hne (congrArg Prod.snd heq2).symm
          · intro r hr
            rcases List.mem_append.mp hr with hmem | hmem
            · exact (hold tb0 htb0).2 r hmem
            · rcases List.mem_map.mp hmem with ⟨x, _, rfl⟩
              exact ⟨rfl, hS⟩
        · rw [if_neg hname] at heq
          subst heq
          exact hold tb0 htb0
      · intro m' hm' tb htb hname' r hr
        rw [appendRows] at htb
        rcases List.mem_map.mp htb with ⟨tb0, htb0, heq⟩
        by_cases hname : tb0.1 = m
        · rw [if_pos hname] at heq
          subst heq
          have hmm : m = m' := hname.symm.trans hname'
          exact absurd (hmm ▸ hm') hnodup'.1
        · rw [if_neg hname] at heq
          subst heq
          exact hfresh m' (List.mem_cons_of_mem m hm') tb0 htb0 hname' r hr
    · cases h

/-- The write step of one commit-loop iteration preserves store
well-formedness, provided the file's retained rows carry distinct
station names and its measure columns are distinct. -/
theorem commitFile_wf (ll : StationFile) (n : Nat) (bs : BState) (simName : Name)
    (t : LoadedTable) (bs' : BState)
    (hrows : (t.rows.map Prod.fst).Nodup) (hms : t.measures.Nodup)
    (hwf : DBWF bs.db)
    (h : commitFile ll n bs simName t = .ok bs') : DBWF bs'.db := by
  unfold commitFile at h
  split at h
  · cases h
  · split at h
    · cases h
    · rename_i db2 hexp
      split at h
      · cases h
      · rename_i tables2 hstore
        cases h
        obtain ⟨hwf1, hwf2, hwf3, hwf4, hwf5, hwf6⟩ := hwf
        obtain ⟨hpres, hmem_int, hims2, hsims2, htabs2, hnext2⟩ :=
          expandStations_wf _ db2 ll (interestingOf ll t) hexp
        have hstat := hpres ⟨hwf1, hwf2, hwf3⟩
        have hsims2x : db2.simulations = bs.db.simulations ++ [⟨bs.db.nextSimId, simName⟩] :=
          hsims2
        have hnext2x : db2.nextSimId = bs.db.nextSimId + 1 := hnext2
        have hids2 : db2.simulations.map Simulation.id =
            bs.db.simulations.map Simulation.id ++ [bs.db.nextSimId] := by
          rw [hsims2x]
          simp
        refine ⟨hstat.1, hstat.2.1, hstat.2.2, ?_, ?_, ?_⟩
        · show (db2.simulations.map Simulation.id).Nodup
          rw [hids2, List.nodup_append]
          refine ⟨hwf4, by simp, ?_⟩
          intro a hmem hb
          rcases List.mem_singleton.mp hb with rfl
          rcases List.mem_map.mp hmem with ⟨s, hs, hsid⟩
          exact absurd hsid (Nat.ne_of_lt (hwf5 s hs))
        · show ∀ s ∈ db2.simulations, s.id < db2.nextSimId
          rw [hsims2x, hnext2x]
          intro s hs
          rcases List.mem_append.mp hs with hmem | hmem
          · exact Nat.lt_succ_of_lt (hwf5 s hmem)
          · rcases List.mem_singleton.mp hmem with rfl
            exact Nat.lt_succ_self _
        · show TablesWF _
          intro tb htb
          have hsel_names : (selectRows t.rows (interestingOf ll t)).map Prod.fst =
              interestingOf ll t :=
            selectRows_names t.rows hrows (interestingOf ll t)
              (fun s hs => (List.mem_filter.mp hs).1)
          have hint_nodup : (interestingOf ll t).Nodup := hrows.filter _
          have hid : ((selectRows t.rows (interestingOf ll t)).map
              (fun r => stationIdOf db2.stations r.1)).Nodup := by
            have hcomp : (selectRows t.rows (interestingOf ll t)).map
                (fun r => stationIdOf db2.stations r.1) =
                ((selectRows t.rows (interestingOf ll t)).map Prod.fst).map
                  (stationIdOf db2.stations) := by
              rw [List.map_map]
              rfl
            rw [hcomp, hsel_names]
            apply List.Nodup.map_on ?_ hint_nodup
            intro x hx y hy hxy
            exact stationIdOf_inj db2.stations hstat.2.1 x y
              (hmem_int x hx) (hmem_int y hy) hxy
          have hfinal := storeImsGo_wf db2.stations (selectRows t.rows (interestingOf ll t))
            bs.db.nextSimId (db2.simulations.map Simulation.id)
            (by rw [hids2]; exact List.mem_append_right _ (List.mem_singleton.mpr rfl))
            hid t.measures 0 db2.tables tables2 hstore hms
            ?_ ?_ tb htb
          · exact hfinal
          · intro tb0 htb0
            rw [htabs2] at htb0
            obtain ⟨hp, hv⟩ := hwf6 tb0 htb0
            refine ⟨hp, ?_⟩
            intro r hr
            obtain ⟨hv1, hv2⟩ := hv r hr
            refine ⟨hv1, ?_⟩
            rw [hids2]
            exact List.mem_append_left _ hv2
          · intro m hm tb0 htb0 hname r hr
            rw [htabs2] at htb0
            obtain ⟨hv1, hv2⟩ := (hwf6 tb0 htb0).2 r hr
            rcases List.mem_map.mp hv2 with ⟨s, hs, hsid⟩
            exact hsid ▸ Nat.ne_of_lt (hwf5 s hs)

/-- One commit-loop iteration preserves store well-formedness. -/
theorem processFile_wf (ll : StationFile) (n : Nat) (bs : BState)
    (p : Name × Option RawTable) (bs' : BState) (hok : fileOk p = true)
    (hwf : DBWF bs.db) (h : processFile ll n bs p = .ok bs') : DBWF bs'.db := by
  unfold processFile at h
  split at h
  · cases h
  · rename_i t hload
    split at h
    · cases h
      exact hwf
    · have hprops : (t.rows.map Prod.fst).Nodup ∧ t.measures.Nodup := by
        unfold fileOk at hok
        rw [hload] at hok
        exact of_decide_eq_true hok
      exact commitFile_wf ll n bs p.1 t bs' hprops.1 hprops.2 hwf h

/-- The whole commit loop preserves store well-formedness. -/
theorem buildLoop_wf (ll : StationFile) (n : Nat) :
    ∀ (files : List (Name × Option RawTable)) (bs bs' : BState),
      (∀ p ∈ files, fileOk p = true) → DBWF bs.db →
      buildLoop ll n bs files = .ok bs' → DBWF bs'.db := by
  intro files
  induction files with
  | nil =>
    intro bs bs' _ hwf h
    cases h
    exact hwf
  | cons p ps ih =>
    intro bs bs' hok hwf h
    rw [buildLoop] at h
    cases hpf : processFile ll n bs p with
    | error e => rw [hpf] at h; cases h
    | ok bs2 =>
      rw [hpf] at h
      exact ih bs2 bs' (fun q hq => hok q (List.mem_cons_of_mem p hq))
        (processFile_wf ll n bs p bs2 (hok p (List.mem_cons_self p ps)) hwf hpf) h

end Invariants

/-- The (station id, simulation id) keys of every value table of a
completed build (`[]` for an aborted build). -/
def resultTablePairs (r : Except BuildError BState) : List (List (Nat × Nat)) :=
  match r with
  | .ok bs => bs.db.tables.map (fun tb => tablePairs tb.2)
  | .error _ => []

/-- C3, counterexample.  A second source file carrying two retained rows
for station `A` (already registered by the first file) completes the
build and leaves the `P` value table with FOUR rows keyed
(station 1, simulation 2): the schema has no uniqueness constraint and
`__store_ims` inserts one row per selected row label occurrence. -/
theorem c3_counterexample :
    resultTablePairs (createImdb filesDupStation llOnlyA) =
      [[(1, 1), (1, 2), (1, 2), (1, 2), (1, 2)]] := by
  rfl

/-- C3, amended: provided every source file's retained (surface) rows
carry pairwise-distinct station names — which also makes the label
selection single-valued — every value table of a completed build has at
most one row per (station, simulation) pair, and every row's value is
present. -/
theorem c3_unique_measurements (files : List (Name × Option RawTable)) (ll : StationFile)
    (bs : BState) (hfiles : ∀ p ∈ files, fileOk p = true)
    (h : createImdb files ll = .ok bs) :
    ∀ tb ∈ bs.db.tables, (tablePairs tb.2).Nodup ∧ ∀ r ∈ tb.2, r.value.isSome = true := by
  unfold createImdb at h
  split at h
  · cases h
  · split at h
    · cases h
    · split at h
      · cases h
      · rename_i db0 hinit
        have hwf := buildLoop_wf ll _ _ ⟨db0, []⟩ bs hfiles (initDb_wf _ db0 hinit) h
        intro tb htb
        obtain ⟨hp, hv⟩ := hwf.2.2.2.2.2 tb htb
        exact ⟨hp, fun r hr => (hv r hr).1⟩

/-- C3, witness for the amended theorem: a one-file build. -/
theorem c3_unique_measurements_witness :
    (∀ p ∈ [(nmS1, some rawA)], fileOk p = true) ∧
      createImdb [(nmS1, some rawA)] llOnlyA =
        .ok ⟨⟨[nmP], [⟨1, nmA, 0, 0⟩], [⟨1, nmS1⟩], [(nmP, [⟨1, 1, some 0⟩])], 2, 2⟩,
          [.progress 1 1]⟩ ∧
      (∀ tb ∈ (⟨⟨[nmP], [⟨1, nmA, 0, 0⟩], [⟨1, nmS1⟩], [(nmP, [⟨1, 1, some 0⟩])], 2, 2⟩,
            [.progress 1 1]⟩ : BState).db.tables,
        (tablePairs tb.2).Nodup ∧ ∀ r ∈ tb.2, r.value.isSome = true) :=
  ⟨by decide, rfl,
    c3_unique_measurements [(nmS1, some rawA)] llOnlyA _ (by decide) rfl⟩

/-! ## Query engine: `station_ims` (imdb.py lines 254-322) -/

/-- A pandas `DataFrame` as assembled by `station_ims`: row labels
(simulation names), column labels (measure names), and the value
matrix in row-major order. -/
structure Frame where
  index : List Name
  cols : List Name
  data : List (List ℝ)

/-- The world a query runs against: the persistent store and the
per-station cache directory (`<db_file>_stations/<station>.csv`). -/
structure QState where
  db : DB
  cache : List (Name × Frame)

/-- Python exceptions the query path can raise. -/
inductive QueryError where
  | keyError
  | indexError
  | missingTable
  | workerError
  | sqlError
  | frameError
deriving DecidableEq

/-- Observable side effects of one `station_ims` call: how many
parallel per-measure reads were fanned out, whether the SQLite store
was opened, and what was printed. -/
structure QEffects where
  fanout : Nat
  storeRead : Bool
  log : List Msg
deriving DecidableEq

/-- Cache probe `os.path.exists(csv)` + `pd.read_csv`: the cache entry for a
station, if the cache file exists. -/
def lookupCache (cache : List (Name × Frame)) (s : Name) : Option Frame :=
  (cache.find? (fun e => decide (e.1 = s))).map (·.2)

/-- Look a value table up by measure name. -/
def lookupTable (tables : List (Name × List MeasRow)) (m : Name) : Option (List MeasRow) :=
  (tables.find? (fun tb => decide (tb.1 = m))).map (·.2)

/-- Sort relation for `ORDER BY simulation_id` on value-table rows. -/
abbrev simLE (a b : MeasRow) : Prop := a.simulation_id ≤ b.simulation_id

instance : DecidableRel simLE := fun a b => Nat.decLe a.simulation_id b.simulation_id

instance : IsTotal MeasRow simLE := ⟨fun a b => Nat.le_total a.simulation_id b.simulation_id⟩

instance : IsTrans MeasRow simLE := ⟨fun _ _ _ => Nat.le_trans⟩

/-- Sort relation for `ORDER BY id` on simulation registry rows. -/
abbrev simEntryLE (a b : Simulation) : Prop := a.id ≤ b.id

instance : DecidableRel simEntryLE := fun a b => Nat.decLe a.id b.id

instance : IsTotal Simulation simEntryLE := ⟨fun a b => Nat.le_total a.id b.id⟩

instance : IsTrans Simulation simEntryLE := ⟨fun _ _ _ => Nat.le_trans⟩

/-- Model of `__im_at_station` (imdb.py lines 137-157): select this station's
(simulation id, value) pairs from one measure table ordered by
simulation id, writing them into a zero-initialised 2 × n_sim matrix.
More rows than `nSim` overruns the matrix (an `IndexError` in the
worker, re-raised by `pool.map`), fewer leaves zero padding. -/
def imAtStation (rows : List MeasRow) (stationId nSim : Nat) : Option (List Nat × List ℝ) :=
  if nSim < (List.insertionSort simLE (rows.filter (fun r => decide (r.station_id = stationId)))).length
  then none
  else
    some
      ((List.insertionSort simLE (rows.filter (fun r => decide (r.station_id = stationId)))).map
          MeasRow.simulation_id ++
        List.replicate (nSim - (List.insertionSort simLE
          (rows.filter (fun r => decide (r.station_id = stationId)))).length) 0,
      (List.insertionSort simLE (rows.filter (fun r => decide (r.station_id = stationId)))).map
          (fun r => r.value.getD 0) ++
        List.replicate (nSim - (List.insertionSort simLE
          (rows.filter (fun r => decide (r.station_id = stationId)))).length) 0)

/-- Row count `SELECT COUNT(*) FROM <im0> WHERE station_id = ...` (imdb.py lines
285-290). -/
def stationCount (rows : List MeasRow) (stationId : Nat) : Nat :=
  (rows.filter (fun r => decide (r.station_id = stationId))).length

/-- The `pool.map` fan-out (imdb.py lines 295-300): one `__im_at_station`
read per measure. -/
def fanResults (db : DB) (stationId nSim : Nat) : List (Option (List Nat × List ℝ)) :=
  db.ims.map (fun m => (lookupTable db.tables m).bind (fun rws => imAtStation rws stationId nSim))

/-- The per-measure (ids, values) columns after the fan-out. -/
def fanCols (db : DB) (stationId nSim : Nat) : List (List Nat × List ℝ) :=
  (fanResults db stationId nSim).map (fun c => c.getD ([], []))

/-- The trusted id list `simulation_ids = id_vals[0][0]` (imdb.py line 301): the simulation
ids of the FIRST measure's read, trusted for all measures. -/
def fanSimIds (db : DB) (stationId nSim : Nat) : List Nat :=
  ((fanCols db stationId nSim).headD ([], [])).1

/-- The query `SELECT name FROM simulations WHERE id in (...) ORDER BY id`
(imdb.py lines 306-312). -/
def gmNamesOf (db : DB) (simIds : List Nat) : List Name :=
  ((db.simulations.filter (fun s => decide (s.id ∈ simIds))).insertionSort simEntryLE).map
    Simulation.name

/-- The uncached reconstruction done by `station_ims` after the station
id is known: count rows in the first measure's table, fan out one read
per measure, resolve the first read's simulation ids to names, and
assemble the `DataFrame`.  Error cases: no measures (`im_names[0]`), a
missing value table, a worker `IndexError`, the empty `id in ()` SQL
clause, and a name list whose length does not match the row count. -/
def buildFrame (db : DB) (stationId : Nat) : Except QueryError Frame :=
  match db.ims with
  | [] => .error .indexError
  | im0 :: _ =>
    match lookupTable db.tables im0 with
    | none => .error .missingTable
    | some rows0 =>
      if (fanResults db stationId (stationCount rows0 stationId)).any (fun c => c.isNone) then
        .error .workerError
      else if (fanSimIds db stationId (stationCount rows0 stationId)).isEmpty then
        .error .sqlError
      else if (gmNamesOf db (fanSimIds db stationId (stationCount rows0 stationId))).length =
          stationCount rows0 stationId then
        .ok ⟨gmNamesOf db (fanSimIds db stationId (stationCount rows0 stationId)), db.ims,
          (List.range (stationCount rows0 stationId)).map
            (fun rI => (fanCols db stationId (stationCount rows0 stationId)).map
              (fun c => c.2.getD rI 0))⟩
      else .error .frameError

/-- Projection `df` or `df[im]`: optional projection to one measure column; a
measure the frame does not carry raises a `KeyError`. -/
def projectFrame (f : Frame) (im : Option Name) : Option Frame :=
  match im with
  | none => some f
  | some m =>
    if m ∈ f.cols then
      some ⟨f.index, [m], f.data.map (fun row => [row.getD (f.cols.indexOf m) 0])⟩
    else none

/-- Effects of a cache hit: no fan-out, the store is never opened. -/
def hitEffects : QEffects := ⟨0, false, []⟩

/-- Effects of a full reconstruction: one parallel read per measure. -/
def missEffects (nIm : Nat) : QEffects := ⟨nIm, true, []⟩

/-- Effects of the station-not-found path: a printed diagnostic, no
fan-out. -/
def notFoundEffects (s : Name) : QEffects := ⟨0, true, [.stationNotFound s]⟩

/-- Model of `station_ims` (imdb.py lines 254-322): serve from the cache file if
it exists (the store is not touched); otherwise look the station up
(absent → print a diagnostic and return `None`), reconstruct the frame,
write it to the cache, and return it, optionally projected. -/
def stationIms (qs : QState) (station : Name) (im : Option Name) :
    Except QueryError (Option Frame × QState × QEffects) :=
  match lookupCache qs.cache station with
  | some f =>
    match projectFrame f im with
    | none => .error .keyError
    | some g => .ok (some g, qs, hitEffects)
  | none =>
    match qs.db.stations.find? (fun st => decide (st.name = station)) with
    | none => .ok (none, qs, notFoundEffects station)
    | some st =>
      match buildFrame qs.db st.id with
      | .error e => .error e
      | .ok df =>
        match projectFrame df im with
        | none => .error .keyError
        | some g => .ok (some g, ⟨qs.db, (station, df) :: qs.cache⟩, missEffects qs.db.ims.length)

section QueryLemmas

/-- The cache entry just written is the one found. -/
theorem lookupCache_cons_self (cache : List (Name × Frame)) (s : Name) (f : Frame) :
    lookupCache ((s, f) :: cache) s = some f := by
  simp [lookupCache]

/-- A cache hit serves the projected cache entry with no fan-out and no
store access. -/
theorem stationIms_cacheHit (qs : QState) (s : Name) (im : Option Name) (f g : Frame)
    (h1 : lookupCache qs.cache s = some f) (h2 : projectFrame f im = some g) :
    stationIms qs s im = .ok (some g, qs, hitEffects) := by
  unfold stationIms
  rw [h1]
  show (match projectFrame f im with
        | none => Except.error QueryError.keyError
        | some g => Except.ok (some g, qs, hitEffects)) = Except.ok (some g, qs, hitEffects)
  rw [h2]

end QueryLemmas

/-- A one-station, one-measure, one-simulation store (the store
`create_imdb` builds from `rawA` alone). -/
def dbOneStation : DB :=
  ⟨[nmP], [⟨1, nmA, 0, 0⟩], [⟨1, nmS1⟩], [(nmP, [⟨1, 1, some 0⟩])], 2, 2⟩

/-- That store with an empty cache directory. -/
def qsOneStation : QState := ⟨dbOneStation, []⟩

/-- The frame `station_ims` reconstructs for station `A` there. -/
def frameOne : Frame := ⟨[nmS1], [nmP], [[0]]⟩

/-- The state after the first query for `A`: the frame is cached. -/
def qsOneCached : QState := ⟨dbOneStation, [(nmA, frameOne)]⟩

/-- C6: a successful `station_ims` call immediately repeated returns the
bit-identical frame, and the second call is a pure cache hit — zero
parallel fan-out, the persistent store never opened, the state
unchanged. -/
theorem c6_repeat_query_cache_hit (qs : QState) (s : Name) (im : Option Name)
    (f : Frame) (qs1 : QState) (e1 : QEffects)
    (h : stationIms qs s im = .ok (some f, qs1, e1)) :
    stationIms qs1 s im = .ok (some f, qs1, hitEffects) := by
  unfold stationIms at h
  split at h
  · rename_i fc hfc
    split at h
    · cases h
    · rename_i g hg
      rw [Except.ok.injEq, Prod.mk.injEq, Prod.mk.injEq, Option.some.injEq] at h
      obtain ⟨rfl, rfl, rfl⟩ := h
      exact stationIms_cacheHit qs s im fc _ hfc hg
  · rename_i hmiss
    split at h
    · rw [Except.ok.injEq, Prod.mk.injEq] at h
      exact absurd h.1 (by simp)
    · rename_i st hst
      split at h
      · cases h
      · rename_i df hdf
        split at h
        · cases h
        · rename_i g hg
          rw [Except.ok.injEq, Prod.mk.injEq, Prod.mk.injEq, Option.some.injEq] at h
          obtain ⟨rfl, rfl, rfl⟩ := h
          exact stationIms_cacheHit ⟨qs.db, (s, df) :: qs.cache⟩ s im df _
            (lookupCache_cons_self qs.cache s df) hg

/-- C6, witness: a one-station, one-measure store queried twice. -/
theorem c6_repeat_query_cache_hit_witness :
    stationIms qsOneStation nmA none = .ok (some frameOne, qsOneCached, missEffects 1) ∧
      stationIms qsOneCached nmA none = .ok (some frameOne, qsOneCached, hitEffects) :=
  ⟨rfl, c6_repeat_query_cache_hit qsOneStation nmA none frameOne qsOneCached (missEffects 1) rfl⟩

/-- C8: querying a station name that has no cache entry and is absent
from the station registry returns the `None` sentinel (not a raised
error) together with a printed diagnostic, and leaves the store and the
cache directory exactly as they were. -/
theorem c8_unknown_station_sentinel (qs : QState) (s : Name) (im : Option Name)
    (h1 : lookupCache qs.cache s = none)
    (h2 : s ∉ qs.db.stations.map Station.name) :
    stationIms qs s im = .ok (none, qs, notFoundEffects s) := by
  have hfind : qs.db.stations.find? (fun st => decide (st.name = s)) = none := by
    rw [List.find?_eq_none]
    intro st hst hdec
    exact h2 (of_decide_eq_true hdec ▸ List.mem_map_of_mem Station.name hst)
  unfold stationIms
  rw [h1, hfind]

/-- C8, witness: the one-station store queried for the unknown `B`. -/
theorem c8_unknown_station_sentinel_witness :
    lookupCache qsOneStation.cache nmB = none ∧
      nmB ∉ qsOneStation.db.stations.map Station.name ∧
      stationIms qsOneStation nmB none = .ok (none, qsOneStation, notFoundEffects nmB) :=
  ⟨rfl, by decide, c8_unknown_station_sentinel qsOneStation nmB none rfl (by decide)⟩

/-- The lookup `SELECT name FROM simulations WHERE id = i`, as a name-resolution
function (empty name if the id is unknown). -/
def resolveSimName (sims : List Simulation) (i : Nat) : Name :=
  ((sims.find? (fun x => decide (x.id = i))).map Simulation.name).getD []

/-- The simulation ids of the given station's rows in the first
measure's value table — the row set `station_ims` trusts for the whole
frame. -/
def firstMeasureSimIds (db : DB) (stationId : Nat) : List Nat :=
  match db.ims with
  | [] => []
  | im0 :: _ =>
    (((lookupTable db.tables im0).getD []).filter
      (fun r => decide (r.station_id = stationId))).map MeasRow.simulation_id

section OrderingLemmas

/-- In a registry with distinct ids, looking an id up finds exactly its
row. -/
theorem find?_sim_unique (sims : List Simulation)
    (h : (sims.map Simulation.id).Nodup) (s : Simulation) (hs : s ∈ sims) :
    sims.find? (fun x => decide (x.id = s.id)) = some s := by
  induction sims with
  | nil => cases hs
  | cons a l ih =>
    rw [List.map_cons, List.nodup_cons] at h
    rcases List.mem_cons.mp hs with rfl | hmem
    · rw [List.find?_cons_of_pos _ (by simp)]
    · have hne : a.id ≠ s.id := by
        intro heq
        exact h.1 (heq ▸ List.mem_map_of_mem Simulation.id hmem)
      rw [List.find?_cons_of_neg _ (by simpa using hne)]
      exact ih h.2 hmem

/-- A list of pairs with a constant first component and no duplicates
has distinct second components. -/
theorem constFst_nodup_map_snd (c : Nat) (l : List (Nat × Nat))
    (hconst : ∀ x ∈ l, x.1 = c) (hl : l.Nodup) : (l.map Prod.snd).Nodup := by
  refine List.Nodup.map_on ?_ hl
  intro x hx y hy hxy
  exact Prod.ext (by rw [hconst x hx, hconst y hy]) hxy

/-- The name resolution step of `station_ims`: `SELECT name FROM
simulations WHERE id in ids ORDER BY id` returns exactly the names of
`ids` resolved in `ids` order, whenever `ids` is itself sorted, has no
duplicates, and only mentions registered ids. -/
theorem gmNamesOf_eq_map_resolve (db : DB) (ids : List Nat)
    (hsims : (db.simulations.map Simulation.id).Nodup)
    (hnodup : ids.Nodup) (hsorted : ids.Sorted (· ≤ ·))
    (hmem : ∀ i ∈ ids, i ∈ db.simulations.map Simulation.id) :
    gmNamesOf db ids = ids.map (resolveSimName db.simulations) := by
  haveI : IsAntisymm ℕ (· < ·) := ⟨fun a b hab hba => absurd hba (Nat.lt_asymm hab)⟩
  unfold gmNamesOf
  have hpermLF : (List.insertionSort simEntryLE
      (db.simulations.filter (fun s => decide (s.id ∈ ids)))).Perm
      (db.simulations.filter (fun s => decide (s.id ∈ ids))) :=
    List.perm_insertionSort _ _
  have hFsub : ((db.simulations.filter (fun s => decide (s.id ∈ ids))).map
      Simulation.id).Sublist (db.simulations.map Simulation.id) :=
    (List.filter_sublist _).map _
  have hFnodup : ((db.simulations.filter (fun s => decide (s.id ∈ ids))).map
      Simulation.id).Nodup := hsims.sublist hFsub
  have hLnodup : ((List.insertionSort simEntryLE
      (db.simulations.filter (fun s => decide (s.id ∈ ids)))).map Simulation.id).Nodup :=
    ((hpermLF.map _).nodup_iff).mpr hFnodup
  have hLsortedLE : ((List.insertionSort simEntryLE
      (db.simulations.filter (fun s => decide (s.id ∈ ids)))).map Simulation.id).Sorted
      (· ≤ ·) :=
    List.pairwise_map.mpr (List.sorted_insertionSort _ _)
  have hperm_ids : ((List.insertionSort simEntryLE
      (db.simulations.filter (fun s => decide (s.id ∈ ids)))).map Simulation.id).Perm ids := by
    refine (hpermLF.map _).trans ?_
    refine (List.perm_ext_iff_of_nodup hFnodup hnodup).mpr ?_
    intro x
    constructor
    · intro hx
      rcases List.mem_map.mp hx with ⟨s, hsF, rfl⟩
      exact of_decide_eq_true (List.mem_filter.mp hsF).2
    · intro hx
      rcases List.mem_map.mp (hmem x hx) with ⟨s, hsmem, rfl⟩
      exact List.mem_map_of_mem _ (List.mem_filter.mpr ⟨hsmem, decide_eq_true hx⟩)
  have hLlt := (hLsortedLE.and hLnodup).imp
    (fun h => lt_of_le_of_ne h.1 h.2)
  have hids_lt := (hsorted.and hnodup).imp
    (fun h => lt_of_le_of_ne h.1 h.2)
  have hid_eq : (List.insertionSort simEntryLE
      (db.simulations.filter (fun s => decide (s.id ∈ ids)))).map Simulation.id = ids :=
    List.eq_of_perm_of_sorted hperm_ids hLlt hids_lt
  have hname : (List.insertionSort simEntryLE
        (db.simulations.filter (fun s => decide (s.id ∈ ids)))).map Simulation.name =
      ((List.insertionSort simEntryLE
        (db.simulations.filter (fun s => decide (s.id ∈ ids)))).map Simulation.id).map
        (resolveSimName db.simulations) := by
    rw [List.map_map]
    refine List.map_congr_left ?_
    intro s hsL
    have hsmem : s ∈ db.simulations :=
      (List.mem_filter.mp (hpermLF.mem_iff.mp hsL)).1
    show s.name = resolveSimName db.simulations s.id
    unfold resolveSimName
    rw [find?_sim_unique db.simulations hsims s hsmem]
    rfl
  rw [hname, hid_eq]

/-- The simulation-id list `station_ims` trusts is the first measure's
rows for this station sorted ascending by simulation id (no zero
padding occurs for the first measure, since the row count was taken
from that very table). -/
theorem fanSimIds_first (db : DB) (sid : Nat) (im0 : Name) (rest : List Name)
    (rows0 : List MeasRow) (him : db.ims = im0 :: rest)
    (hlt : lookupTable db.tables im0 = some rows0) :
    fanSimIds db sid (stationCount rows0 sid) =
      (List.insertionSort simLE (rows0.filter (fun r => decide (r.station_id = sid)))).map
        MeasRow.simulation_id := by
  unfold fanSimIds fanCols fanResults
  rw [him]
  simp only [List.map_cons, List.headD_cons]
  rw [hlt]
  have hlen : (List.insertionSort simLE
      (rows0.filter (fun r => decide (r.station_id = sid)))).length =
      stationCount rows0 sid := by
    unfold stationCount
    exact List.length_insertionSort _ _
  show ((imAtStation rows0 sid (stationCount rows0 sid)).getD ([], [])).1 = _
  unfold imAtStation
  rw [if_neg (by omega)]
  simp [hlen]

end OrderingLemmas

/-- C7: for an uncached query, the frame `station_ims` returns has its
rows keyed by a simulation-id list that is sorted non-decreasing (a
permutation of the station's row set in the first measure's table), and
its row labels are exactly those ids resolved to simulation names in
that same ascending order. -/
theorem c7_query_rows_sorted_by_sim (qs : QState) (s : Name) (f : Frame) (qs1 : QState)
    (e1 : QEffects)
    (hsims : (qs.db.simulations.map Simulation.id).Nodup)
    (htabs : ∀ tb ∈ qs.db.tables, (tablePairs tb.2).Nodup ∧
      ∀ r ∈ tb.2, r.simulation_id ∈ qs.db.simulations.map Simulation.id)
    (hcache : lookupCache qs.cache s = none)
    (h : stationIms qs s none = .ok (some f, qs1, e1)) :
    ∃ (st : Station) (ids : List Nat),
      qs.db.stations.find? (fun x => decide (x.name = s)) = some st ∧
      ids.Perm (firstMeasureSimIds qs.db st.id) ∧
      ids.Sorted (· ≤ ·) ∧
      f.index = ids.map (resolveSimName qs.db.simulations) := by
  unfold stationIms at h
  rw [hcache] at h
  split at h
  · rename_i fc hfc
    cases hfc
  · split at h
    · rw [Except.ok.injEq, Prod.mk.injEq] at h
      exact absurd h.1 (by simp)
    · rename_i st hst
      refine ⟨st, ?_⟩
      split at h
      · cases h
      · rename_i df hbf
        split at h
        · rename_i hnone
          simp [projectFrame] at hnone
        · rename_i g hg
          rw [Except.ok.injEq, Prod.mk.injEq, Prod.mk.injEq, Option.some.injEq] at h
          obtain ⟨rfl, -, -⟩ := h
          have hdg : df = g := by simpa [projectFrame] using hg
          subst hdg
          unfold buildFrame at hbf
          split at hbf
          · cases hbf
          · rename_i im0 rest him
            split at hbf
            · cases hbf
            · rename_i rows0 hlt
              split at hbf
              · cases hbf
              · split at hbf
                · cases hbf
                · split at hbf
                  · rw [Except.ok.injEq] at hbf
                    subst hbf
                    refine ⟨fanSimIds qs.db st.id (stationCount rows0 st.id), hst, ?_, ?_, ?_⟩
                    · rw [fanSimIds_first qs.db st.id im0 rest rows0 him hlt]
                      have hfirst : firstMeasureSimIds qs.db st.id =
                          (rows0.filter (fun r => decide (r.station_id = st.id))).map
                            MeasRow.simulation_id := by
                        unfold firstMeasureSimIds
                        simp only [him, hlt, Option.getD_some]
                      rw [hfirst]
                      exact (List.perm_insertionSort simLE _).map MeasRow.simulation_id
                    · rw [fanSimIds_first qs.db st.id im0 rest rows0 him hlt]
                      exact List.pairwise_map.mpr (List.sorted_insertionSort _ _)
                    · show gmNamesOf qs.db (fanSimIds qs.db st.id (stationCount rows0 st.id)) = _
                      have htb0 : ∃ tb0 ∈ qs.db.tables, tb0.2 = rows0 := by
                        unfold lookupTable at hlt
                        cases hfind : qs.db.tables.find? (fun tb => decide (tb.1 = im0)) with
                        | none => rw [hfind] at hlt; cases hlt
                        | some tb0 =>
                          rw [hfind] at hlt
                          exact ⟨tb0, List.mem_of_find?_eq_some hfind,
                            by simpa using hlt⟩
                      obtain ⟨tb0, htb0_mem, htb0_rows⟩ := htb0
                      have hfilter_nodup :
                          ((rows0.filter (fun r => decide (r.station_id = st.id))).map
                            MeasRow.simulation_id).Nodup := by
                        have hpairs : (tablePairs rows0).Nodup := htb0_rows ▸ (htabs tb0 htb0_mem).1
                        have hsubpairs : (tablePairs
                            (rows0.filter (fun r => decide (r.station_id = st.id)))).Nodup := by
                          refine hpairs.sublist ?_
                          exact (List.filter_sublist _).map _
                        have hconst : ∀ x ∈ tablePairs
                            (rows0.filter (fun r => decide (r.station_id = st.id))), x.1 = st.id := by
                          intro x hx
                          rcases List.mem_map.mp hx with ⟨r, hr, rfl⟩
                          exact of_decide_eq_true (List.mem_filter.mp hr).2
                        have hsnd := constFst_nodup_map_snd st.id _ hconst hsubpairs
                        rw [tablePairs, List.map_map] at hsnd
                        exact hsnd
                      have hids_nodup : (fanSimIds qs.db st.id (stationCount rows0 st.id)).Nodup := by
                        rw [fanSimIds_first qs.db st.id im0 rest rows0 him hlt]
                        refine (((List.perm_insertionSort simLE _).map
                          MeasRow.simulation_id).nodup_iff).mpr hfilter_nodup
                      have hids_sorted : (fanSimIds qs.db st.id (stationCount rows0 st.id)).Sorted
                          (· ≤ ·) := by
                        rw [fanSimIds_first qs.db st.id im0 rest rows0 him hlt]
                        exact List.pairwise_map.mpr (List.sorted_insertionSort _ _)
                      have hids_mem : ∀ i ∈ fanSimIds qs.db st.id (stationCount rows0 st.id),
                          i ∈ qs.db.simulations.map Simulation.id := by
                        intro i hi
                        rw [fanSimIds_first qs.db st.id im0 rest rows0 him hlt] at hi
                        have hi2 := ((List.perm_insertionSort simLE _).map
                          MeasRow.simulation_id).mem_iff.mp hi
                        rcases List.mem_map.mp hi2 with ⟨r, hr, rfl⟩
                        have hrmem : r ∈ rows0 := (List.mem_filter.mp hr).1
                        exact (htabs tb0 htb0_mem).2 r (htb0_rows ▸ hrmem)
                      exact gmNamesOf_eq_map_resolve qs.db _ hsims hids_nodup hids_sorted hids_mem
                  · cases hbf

/-- C7, witness: the uncached query for `A` on the one-station store. -/
theorem c7_query_rows_sorted_by_sim_witness :
    (qsOneStation.db.simulations.map Simulation.id).Nodup ∧
      (∀ tb ∈ qsOneStation.db.tables, (tablePairs tb.2).Nodup ∧
        ∀ r ∈ tb.2, r.simulation_id ∈ qsOneStation.db.simulations.map Simulation.id) ∧
      lookupCache qsOneStation.cache nmA = none ∧
      stationIms qsOneStation nmA none = .ok (some frameOne, qsOneCached, missEffects 1) ∧
      (∃ (st : Station) (ids : List Nat),
        qsOneStation.db.stations.find? (fun x => decide (x.name = nmA)) = some st ∧
        ids.Perm (firstMeasureSimIds qsOneStation.db st.id) ∧
        ids.Sorted (· ≤ ·) ∧
        frameOne.index = ids.map (resolveSimName qsOneStation.db.simulations)) :=
  ⟨by decide, by decide, rfl, rfl,
    c7_query_rows_sorted_by_sim qsOneStation nmA frameOne qsOneCached (missEffects 1)
      (by decide) (by decide) rfl rfl⟩

/-! ## Geodesy and station records: `closest_station`, `station_details`
(imdb.py lines 325-393).  Machine floats are idealised as real numbers;
the `S7` byte-string dtype of the numpy record (which truncates names) is
kept exactly. -/

/-- Degrees to radians, `np.radians`. -/
noncomputable def radians (x : ℝ) : ℝ := x * Real.pi / 180

/-- Model of `np.arctan2` over the reals (quadrant-correct arctangent). -/
noncomputable def atan2 (y x : ℝ) : ℝ :=
  if 0 < x then Real.arctan (y / x)
  else if x < 0 then
    (if 0 ≤ y then Real.arctan (y / x) + Real.pi else Real.arctan (y / x) - Real.pi)
  else if 0 < y then Real.pi / 2
  else if y < 0 then -(Real.pi / 2)
  else 0

/-- The intermediate haversine quantity `d` (imdb.py lines 347-352). -/
noncomputable def haversineD (lon lat slon slat : ℝ) : ℝ :=
  Real.sin (radians (slat - lat) / 2) ^ 2 +
    Real.cos (radians lat) * Real.cos (radians slat) * Real.sin (radians (slon - lon) / 2) ^ 2

/-- The great-circle distance of imdb.py line 353:
`6378.139 * 2.0 * arctan2(sqrt(d), sqrt(1 - d))`. -/
noncomputable def haversine (lon lat slon slat : ℝ) : ℝ :=
  6378.139 * 2 * atan2 (Real.sqrt (haversineD lon lat slon slat))
    (Real.sqrt (1 - haversineD lon lat slon slat))

/-- Model of `np.argmin`: index of the first minimal element (0 on the empty
list, where numpy raises instead — callers guard that case). -/
noncomputable def npArgmin : List ℝ → Nat
  | [] => 0
  | x :: xs => if ∀ y ∈ xs, x ≤ y then 0 else npArgmin xs + 1

/-- The numpy record of `closest_station`: dtype
`[i4, S7, f4, f4, f4]` — the name is truncated to 7 bytes. -/
structure CRec where
  id : Nat
  name : Name
  lon : ℝ
  lat : ℝ
  dist : ℝ

/-- A station row converted to the `closest_station` record, with the
distance to the query point filled in. -/
noncomputable def crecOf (lon lat : ℝ) (s : Station) : CRec :=
  ⟨s.id, s.name.take 7, s.lon, s.lat, haversine lon lat s.lon s.lat⟩

/-- Placeholder station for out-of-range `getD` (never reached by the
guarded callers). -/
def dummyStation : Station := ⟨0, [], 0, 0⟩

/-- Model of `closest_station` (imdb.py lines 325-355): load every station,
compute all haversine distances, return the record of the first
minimiser.  `np.argmin` on an empty registry raises, modelled as
`none`. -/
noncomputable def closestStation (db : DB) (lon lat : ℝ) : Option CRec :=
  if db.stations.isEmpty then none
  else
    some (crecOf lon lat (db.stations.getD
      (npArgmin (db.stations.map (fun s => haversine lon lat s.lon s.lat))) dummyStation))

/-- The numpy record of `station_details`: dtype `[i4, S7, f4, f4]`. -/
structure DRec where
  id : Nat
  name : Name
  lon : ℝ
  lat : ℝ

/-- A station row converted to the `station_details` record. -/
def drecOf (s : Station) : DRec := ⟨s.id, s.name.take 7, s.lon, s.lat⟩

/-- The result shape: `station_details` returns a bare record when exactly one row was
selected, and the whole record array otherwise. -/
inductive DetailsResult where
  | one (r : DRec)
  | many (rs : List DRec)

/-- The `SELECT` of `station_details` (imdb.py lines 364-377). -/
def detailsSelect (db : DB) (name? : Option Name) (id? : Option Nat) : List Station :=
  match name? with
  | some nm => db.stations.filter (fun st => decide (st.name = nm))
  | none =>
    match id? with
    | some i => db.stations.filter (fun st => decide (st.id = i))
    | none => db.stations

/-- The `r.size == 1` unwrapping of `station_details` (imdb.py lines
389-393). -/
def detailsOf (sel : List Station) : DetailsResult :=
  match sel.map drecOf with
  | [r] => .one r
  | rs => .many rs

/-- Model of `station_details` (imdb.py lines 358-393). -/
def stationDetails (db : DB) (name? : Option Name) (id? : Option Nat) : DetailsResult :=
  detailsOf (detailsSelect db name? id?)

section ArgminLemmas

theorem npArgmin_lt_length : ∀ l : List ℝ, l ≠ [] → npArgmin l < l.length := by
  intro l
  induction l with
  | nil => intro h; exact absurd rfl h
  | cons x xs ih =>
    intro _
    rw [npArgmin]
    split
    · simp
    · rename_i hnot
      push_neg at hnot
      obtain ⟨y, hy, _⟩ := hnot
      have hne : xs ≠ [] := by
        intro hnil
        rw [hnil] at hy
        cases hy
      have := ih hne
      simp only [List.length_cons]
      omega

theorem npArgmin_le : ∀ (l : List ℝ) (j : Nat), j < l.length →
    l.getD (npArgmin l) 0 ≤ l.getD j 0 := by
  intro l
  induction l with
  | nil => intro j hj; cases hj
  | cons x xs ih =>
    intro j hj
    rw [npArgmin]
    split
    · rename_i hall
      cases j with
      | zero => exact le_refl _
      | succ j' =>
        rw [List.getD_cons_zero, List.getD_cons_succ]
        have hj' : j' < xs.length := by simpa using hj
        rw [List.getD_eq_getElem xs 0 hj']
        exact hall _ (List.getElem_mem hj')
    · rename_i hnot
      push_neg at hnot
      obtain ⟨y, hy, hyx⟩ := hnot
      rcases List.mem_iff_getElem.mp hy with ⟨jy, hjy, rfl⟩
      cases j with
      | zero =>
        rw [List.getD_cons_succ, List.getD_cons_zero]
        have h1 := ih jy hjy
        rw [List.getD_eq_getElem xs 0 hjy] at h1
        exact le_of_lt (lt_of_le_of_lt h1 hyx)
      | succ j' =>
        rw [List.getD_cons_succ, List.getD_cons_succ]
        exact ih j' (by simpa using hj)

theorem npArgmin_first : ∀ (l : List ℝ) (j : Nat), j < npArgmin l →
    l.getD (npArgmin l) 0 < l.getD j 0 := by
  intro l
  induction l with
  | nil => intro j hj; rw [npArgmin] at hj; cases hj
  | cons x xs ih =>
    intro j hj
    rw [npArgmin] at hj ⊢
    split
    · rw [if_pos (by assumption)] at hj
      cases hj
    · rename_i hnot
      rw [if_neg (by assumption)] at hj
      push_neg at hnot
      obtain ⟨y, hy, hyx⟩ := hnot
      rcases List.mem_iff_getElem.mp hy with ⟨jy, hjy, rfl⟩
      cases j with
      | zero =>
        rw [List.getD_cons_succ, List.getD_cons_zero]
        have h1 := npArgmin_le xs jy hjy
        rw [List.getD_eq_getElem xs 0 hjy] at h1
        exact lt_of_le_of_lt h1 hyx
      | succ j' =>
        rw [List.getD_cons_succ, List.getD_cons_succ]
        exact ih j' (by omega)

end ArgminLemmas

section HaversineLemmas

theorem atan2_nonneg (y x : ℝ) (hy : 0 ≤ y) (hx : 0 ≤ x) : 0 ≤ atan2 y x := by
  unfold atan2
  rcases lt_or_eq_of_le hx with hxpos | hxzero
  · rw [if_pos hxpos]
    have hq : (0 : ℝ) ≤ y / x := div_nonneg hy (le_of_lt hxpos)
    calc (0 : ℝ) = Real.arctan 0 := Real.arctan_zero.symm
      _ ≤ Real.arctan (y / x) := Real.arctan_strictMono.monotone hq
  · rw [if_neg (by linarith), if_neg (by linarith)]
    rcases lt_or_eq_of_le hy with hypos | hyzero
    · rw [if_pos hypos]
      have hp := Real.pi_pos
      linarith
    · rw [if_neg (by linarith), if_neg (by linarith)]

theorem haversine_nonneg (lon lat slon slat : ℝ) : 0 ≤ haversine lon lat slon slat := by
  unfold haversine
  have h := atan2_nonneg (Real.sqrt (haversineD lon lat slon slat))
    (Real.sqrt (1 - haversineD lon lat slon slat)) (Real.sqrt_nonneg _) (Real.sqrt_nonneg _)
  have hc : (0 : ℝ) ≤ 6378.139 * 2 := by norm_num
  exact mul_nonneg hc h

theorem haversine_self (lon lat : ℝ) : haversine lon lat lon lat = 0 := by
  have hd : haversineD lon lat lon lat = 0 := by
    unfold haversineD radians
    rw [sub_self, sub_self]
    norm_num
  unfold haversine
  rw [hd, sub_zero, Real.sqrt_zero, Real.sqrt_one]
  unfold atan2
  rw [if_pos one_pos]
  norm_num

end HaversineLemmas

/-- C9: on a non-empty registry, `closest_station` returns the record of
a registered station whose haversine distance (Earth radius 6378.139 km)
to the query point is minimal, carrying that computed distance; ties
resolve to the first minimiser in registry order; all computed distances
are non-negative; and a station exactly at the query point has distance
exactly 0. -/
theorem c9_closest_station_minimal (db : DB) (lon lat : ℝ) (hne : db.stations ≠ []) :
    ∃ i : Nat, i < db.stations.length ∧
      closestStation db lon lat = some (crecOf lon lat (db.stations.getD i dummyStation)) ∧
      (crecOf lon lat (db.stations.getD i dummyStation)).dist =
        haversine lon lat (db.stations.getD i dummyStation).lon
          (db.stations.getD i dummyStation).lat ∧
      (∀ j, j < db.stations.length →
        haversine lon lat (db.stations.getD i dummyStation).lon
            (db.stations.getD i dummyStation).lat ≤
          haversine lon lat (db.stations.getD j dummyStation).lon
            (db.stations.getD j dummyStation).lat) ∧
      (∀ j, j < i →
        haversine lon lat (db.stations.getD i dummyStation).lon
            (db.stations.getD i dummyStation).lat <
          haversine lon lat (db.stations.getD j dummyStation).lon
            (db.stations.getD j dummyStation).lat) ∧
      (∀ j, j < db.stations.length →
        0 ≤ haversine lon lat (db.stations.getD j dummyStation).lon
          (db.stations.getD j dummyStation).lat) ∧
      (∀ k, k < db.stations.length →
        (db.stations.getD k dummyStation).lon = lon →
        (db.stations.getD k dummyStation).lat = lat →
        haversine lon lat (db.stations.getD k dummyStation).lon
          (db.stations.getD k dummyStation).lat = 0) := by
  have hmapne : db.stations.map (fun s => haversine lon lat s.lon s.lat) ≠ [] := by
    simpa using hne
  have hlen : (db.stations.map (fun s => haversine lon lat s.lon s.lat)).length =
      db.stations.length := List.length_map _ _
  have hgetD : ∀ j, j < db.stations.length →
      (db.stations.map (fun s => haversine lon lat s.lon s.lat)).getD j 0 =
        haversine lon lat (db.stations.getD j dummyStation).lon
          (db.stations.getD j dummyStation).lat := by
    intro j hj
    have hj2 : j < (db.stations.map (fun s => haversine lon lat s.lon s.lat)).length := by
      omega
    rw [List.getD_eq_getElem _ 0 hj2, List.getD_eq_getElem _ dummyStation hj, List.getElem_map]
  obtain ⟨iMin, hiMin⟩ :
      ∃ iMin, npArgmin (db.stations.map (fun s => haversine lon lat s.lon s.lat)) = iMin :=
    ⟨_, rfl⟩
  have hargl : iMin < db.stations.length := by
    have h0 := npArgmin_lt_length _ hmapne
    rw [hiMin] at h0
    omega
  refine ⟨iMin, hargl, ?_, rfl, ?_, ?_, ?_, ?_⟩
  · unfold closestStation
    rw [if_neg (by simpa [List.isEmpty_iff] using hne), hiMin]
  · intro j hj
    have h1 := npArgmin_le (db.stations.map (fun s => haversine lon lat s.lon s.lat)) j
      (by omega)
    rw [hiMin] at h1
    rw [hgetD iMin hargl, hgetD j hj] at h1
    exact h1
  · intro j hj
    have h1 := npArgmin_first (db.stations.map (fun s => haversine lon lat s.lon s.lat)) j
      (by rw [hiMin]; exact hj)
    rw [hiMin] at h1
    have hjlen : j < db.stations.length := by omega
    rw [hgetD iMin hargl, hgetD j hjlen] at h1
    exact h1
  · intro j _
    exact haversine_nonneg lon lat _ _
  · intro k _ hklon hklat
    rw [hklon, hklat]
    exact haversine_self lon lat

/-- C9, witness: the one-station store queried exactly at the station's
coordinates. -/
theorem c9_closest_station_minimal_witness :
    dbOneStation.stations ≠ [] ∧
      (∃ i : Nat, i < dbOneStation.stations.length ∧
        closestStation dbOneStation 0 0 =
          some (crecOf 0 0 (dbOneStation.stations.getD i dummyStation)) ∧
        (crecOf 0 0 (dbOneStation.stations.getD i dummyStation)).dist =
          haversine 0 0 (dbOneStation.stations.getD i dummyStation).lon
            (dbOneStation.stations.getD i dummyStation).lat ∧
        (∀ j, j < dbOneStation.stations.length →
          haversine 0 0 (dbOneStation.stations.getD i dummyStation).lon
              (dbOneStation.stations.getD i dummyStation).lat ≤
            haversine 0 0 (dbOneStation.stations.getD j dummyStation).lon
              (dbOneStation.stations.getD j dummyStation).lat) ∧
        (∀ j, j < i →
          haversine 0 0 (dbOneStation.stations.getD i dummyStation).lon
              (dbOneStation.stations.getD i dummyStation).lat <
            haversine 0 0 (dbOneStation.stations.getD j dummyStation).lon
              (dbOneStation.stations.getD j dummyStation).lat) ∧
        (∀ j, j < dbOneStation.stations.length →
          0 ≤ haversine 0 0 (dbOneStation.stations.getD j dummyStation).lon
            (dbOneStation.stations.getD j dummyStation).lat) ∧
        (∀ k, k < dbOneStation.stations.length →
          (dbOneStation.stations.getD k dummyStation).lon = 0 →
          (dbOneStation.stations.getD k dummyStation).lat = 0 →
          haversine 0 0 (dbOneStation.stations.getD k dummyStation).lon
            (dbOneStation.stations.getD k dummyStation).lat = 0)) :=
  ⟨List.cons_ne_nil _ _,
    c9_closest_station_minimal dbOneStation 0 0 (List.cons_ne_nil _ _)⟩

/-- In a registry with distinct names, selecting a registered station's
name returns exactly its row. -/
theorem filter_station_entry_single (s : Station) :
    ∀ l : List Station, (l.map Station.name).Nodup → s ∈ l →
      l.filter (fun st => decide (st.name = s.name)) = [s] := by
  intro l
  induction l with
  | nil => intro _ hmem; cases hmem
  | cons a l ih =>
    intro hnodup hmem
    rw [List.map_cons, List.nodup_cons] at hnodup
    rcases List.mem_cons.mp hmem with rfl | hmem2
    · rw [List.filter_cons_of_pos (by simp)]
      have hnone : l.filter (fun st => decide (st.name = s.name)) = [] := by
        rw [List.filter_eq_nil_iff]
        intro x hx hdec
        have hxe : x.name = s.name := of_decide_eq_true hdec
        exact hnodup.1 (hxe ▸ List.mem_map_of_mem Station.name hx)
      rw [hnone]
    · have hne : a.name ≠ s.name := by
        intro heq
        exact hnodup.1 (heq ▸ List.mem_map_of_mem Station.name hmem2)
      rw [List.filter_cons_of_neg (by simpa using hne)]
      exact ih hnodup.2 hmem2

/-- C10: the numpy records of both the nearest-station finder and the
station-details lookup carry the station name truncated to at most 7
bytes (dtype `S7`); for a station whose stored name is longer than 7
bytes, the returned name differs from the stored one. -/
theorem c10_record_name_truncated (db : DB) (s : Station)
    (hmem : s ∈ db.stations) (hnodup : (db.stations.map Station.name).Nodup)
    (hlong : 7 < s.name.length) :
    (∀ (lon lat : ℝ) (rec : CRec), closestStation db lon lat = some rec →
      ∃ t ∈ db.stations, rec.name = t.name.take 7 ∧ rec.name.length ≤ 7) ∧
    stationDetails db (some s.name) none = .one (drecOf s) ∧
    (drecOf s).name = s.name.take 7 ∧
    (drecOf s).name.length ≤ 7 ∧
    (drecOf s).name ≠ s.name := by
  refine ⟨?_, ?_, rfl, ?_, ?_⟩
  · intro lon lat rec h
    unfold closestStation at h
    split_ifs at h with hemp
    · obtain ⟨iMin, hiMin⟩ :
          ∃ iMin, npArgmin (db.stations.map (fun s => haversine lon lat s.lon s.lat)) = iMin :=
        ⟨_, rfl⟩
      rw [hiMin, Option.some.injEq] at h
      subst h
      have hne : db.stations ≠ [] := by simpa [List.isEmpty_iff] using hemp
      have hmapne : db.stations.map (fun s => haversine lon lat s.lon s.lat) ≠ [] := by
        simpa using hne
      have hilt : iMin < db.stations.length := by
        have h0 := npArgmin_lt_length _ hmapne
        rw [hiMin] at h0
        have hlen := List.length_map db.stations (fun s => haversine lon lat s.lon s.lat)
        omega
      refine ⟨db.stations.getD iMin dummyStation, ?_, rfl, ?_⟩
      · rw [List.getD_eq_getElem _ _ hilt]
        exact List.getElem_mem hilt
      · show (((db.stations.getD iMin dummyStation)).name.take 7).length ≤ 7
        rw [List.length_take]
        exact min_le_left _ _
  · show detailsOf (db.stations.filter (fun st => decide (st.name = s.name))) =
      .one (drecOf s)
    rw [filter_station_entry_single s db.stations hnodup hmem]
    rfl
  · show (s.name.take 7).length ≤ 7
    rw [List.length_take]
    exact min_le_left _ _
  · show s.name.take 7 ≠ s.name
    intro heq
    have hlen : (s.name.take 7).length = s.name.length := congrArg List.length heq
    rw [List.length_take] at hlen
    omega

/-- An 8-byte station name. -/
def nmLong : Name := [65, 66, 67, 68, 69, 70, 71, 72]

/-- A store holding one station with an 8-byte name. -/
def dbLongName : DB := ⟨[nmP], [⟨1, nmLong, 0, 0⟩], [], [(nmP, [])], 2, 1⟩

/-- C10, witness: the 8-byte station name is truncated. -/
theorem c10_record_name_truncated_witness :
    (⟨1, nmLong, 0, 0⟩ : Station) ∈ dbLongName.stations ∧
      (dbLongName.stations.map Station.name).Nodup ∧
      7 < nmLong.length ∧
      ((∀ (lon lat : ℝ) (rec : CRec), closestStation dbLongName lon lat = some rec →
          ∃ t ∈ dbLongName.stations, rec.name = t.name.take 7 ∧ rec.name.length ≤ 7) ∧
        stationDetails dbLongName (some nmLong) none = .one (drecOf ⟨1, nmLong, 0, 0⟩) ∧
        (drecOf ⟨1, nmLong, 0, 0⟩).name = nmLong.take 7 ∧
        (drecOf ⟨1, nmLong, 0, 0⟩).name.length ≤ 7 ∧
        (drecOf ⟨1, nmLong, 0, 0⟩).name ≠ nmLong) :=
  ⟨List.mem_singleton.mpr rfl, by decide, by decide,
    c10_record_name_truncated dbLongName ⟨1, nmLong, 0, 0⟩
      (List.mem_singleton.mpr rfl) (by decide) (by decide)⟩

end Imdb
